import Mathlib

/-!
# FileChunkStore (maidsafe/common/file_chunk_store.cc)

A shallow embedding of the file-backed chunk store.  The store object is a
record of its member variables; the filesystem it works on is an explicit
directory tree that every operation receives and returns.

Conventions of the embedding

* `std::uintmax_t` is a `Nat` reduced modulo `UINTMAX_MOD = 2 ^ 64`.
* A byte string (`std::string` holding a chunk name or content) is a
  `List Byte`; a path string is a `List Char`.
* An operation returns `none` exactly when the C++ code would index the hex
  encoding of the chunk name at or beyond its size inside
  `ChunkNameToFilePath` (an out-of-range read: the terminator at index
  `size()`, undefined behaviour beyond it); every other outcome, failures
  included, is `some _`.
* The size of a file is the length of its content and is assumed to fit
  `std::uintmax_t`; input and output errors other than those that follow
  from the shape of the tree (a missing parent, a file where a directory is
  needed, a directory that is not empty) are not modelled.
* Path strings are resolved from the root of the tree; a component is a
  maximal run of characters other than `/`; a trailing `/` demands a
  directory.  The components `.` and `..`, links and permissions are not
  modelled.
-/

namespace maidsafe

/-- One `char` of a `std::string`. -/
abbrev Byte := Fin 256

/-- The modulus of `std::uintmax_t` arithmetic, `2 ^ 64`. -/
def UINTMAX_MOD : Nat := 18446744073709551616

/-! ## The filesystem -/

mutual
/-- A filesystem object: a regular file with its bytes, a directory with its
entries, or anything else (device, socket, dangling link). -/
inductive Node where
  | file (content : List Byte)
  | dir (entries : Entries)
  | other
  deriving DecidableEq
/-- The entries of a directory, in iteration order. -/
inductive Entries where
  | nil
  | cons (name : List Char) (node : Node) (rest : Entries)
  deriving DecidableEq
end

/-- The entry called `name`, when the directory has one. -/
def Entries.find : Entries → List Char → Option Node
  | .nil, _ => none
  | .cons k v rest, name => if k = name then some v else rest.find name

/-- Bind `name` to `v`: in place when `name` is bound, at the end otherwise. -/
def Entries.set : Entries → List Char → Node → Entries
  | .nil, name, v => .cons name v .nil
  | .cons k w rest, name, v =>
    if k = name then .cons k v rest else .cons k w (rest.set name v)

/-- Drop every binding of `name`. -/
def Entries.erase : Entries → List Char → Entries
  | .nil, _ => .nil
  | .cons k w rest, name =>
    if k = name then rest.erase name else .cons k w (rest.erase name)

/-- Whether the directory has no entry. -/
def Entries.isEmpty : Entries → Bool
  | .nil => true
  | .cons _ _ _ => false

/-- Walk down the tree along a list of components. -/
def Node.lookup : Node → List (List Char) → Option Node
  | n, [] => some n
  | .dir es, c :: cs =>
    match es.find c with
    | some m => m.lookup cs
    | none => none
  | _, _ :: _ => none

/-- Create or overwrite the regular file at the components; the parent
directory must exist and the target must not be a directory or special
object. -/
def Node.writeAt : Node → List (List Char) → List Byte → Option Node
  | _, [], _ => none
  | .dir es, [c], data =>
    match es.find c with
    | none => some (.dir (es.set c (.file data)))
    | some (.file _) => some (.dir (es.set c (.file data)))
    | some _ => none
  | .dir es, c :: c2 :: cs, data =>
    match es.find c with
    | some m =>
      match m.writeAt (c2 :: cs) data with
      | some m2 => some (.dir (es.set c m2))
      | none => none
    | none => none
  | _, _ :: _, _ => none

/-- Remove the object at the components: nothing to do when it is absent,
an error (`none`) for a directory that still has entries and for the root. -/
def Node.removeAt : Node → List (List Char) → Option Node
  | _, [] => none
  | .dir es, [c] =>
    match es.find c with
    | none => some (.dir es)
    | some (.dir sub) => if sub.isEmpty then some (.dir (es.erase c)) else none
    | some _ => some (.dir (es.erase c))
  | .dir es, c :: c2 :: cs =>
    match es.find c with
    | some m =>
      match m.removeAt (c2 :: cs) with
      | some m2 => some (.dir (es.set c m2))
      | none => none
    | none => some (.dir es)
  | n, _ :: _ => some n

/-- Remove the object at the components together with everything below. -/
def Node.eraseAt : Node → List (List Char) → Node
  | _, [] => .dir .nil
  | .dir es, [c] => .dir (es.erase c)
  | .dir es, c :: c2 :: cs =>
    match es.find c with
    | some m => .dir (es.set c (m.eraseAt (c2 :: cs)))
    | none => .dir es
  | n, _ :: _ => n

/-- Create every missing directory along the components; stops silently at
a component that exists and is not a directory. -/
def Node.mkdirs : Node → List (List Char) → Node
  | n, [] => n
  | .dir es, c :: cs =>
    match es.find c with
    | some m => .dir (es.set c (m.mkdirs cs))
    | none => .dir (es.set c (Node.mkdirs (.dir .nil) cs))
  | n, _ :: _ => n

/-- Create the last component as an empty directory; its parent must exist
and the target must be absent. -/
def Node.mkdirAt : Node → List (List Char) → Option Node
  | _, [] => none
  | .dir es, [c] =>
    match es.find c with
    | none => some (.dir (es.set c (.dir .nil)))
    | some _ => none
  | .dir es, c :: c2 :: cs =>
    match es.find c with
    | some m =>
      match m.mkdirAt (c2 :: cs) with
      | some m2 => some (.dir (es.set c m2))
      | none => none
    | none => none
  | _, _ :: _ => none

/-! ## Path strings -/

/-- Split a path string at every `/`. -/
def splitPath : List Char → List (List Char)
  | [] => [[]]
  | c :: cs =>
    if c = '/' then [] :: splitPath cs
    else
      match splitPath cs with
      | [] => [[c]]
      | w :: ws => (c :: w) :: ws

/-- A parsed path: its non-empty components and whether the string ended in
a `/`. -/
structure Path where
  comps : List (List Char)
  slash : Bool
  deriving DecidableEq

/-- Parse a path string. -/
def parsePath (p : List Char) : Path :=
  { comps := (splitPath p).filter (fun w => !w.isEmpty)
    slash := p.getLast? == some '/' }

end maidsafe

/-! ## The part of boost::filesystem the store uses -/

namespace fs

open maidsafe

/-- The object a path string names (`fs::status`): nothing for the empty
string, and nothing for a non-directory named with a trailing `/`. -/
def status (disk : Node) (p : List Char) : Option Node :=
  if p.isEmpty then none
  else
    match disk.lookup (parsePath p).comps with
    | some (.dir es) => some (.dir es)
    | some n => if (parsePath p).slash then none else some n
    | none => none

/-- Is there an object at `p` (`fs::exists`). -/
def path_exists (disk : Node) (p : List Char) : Bool :=
  (status disk p).isSome

/-- The size of the regular file at `p`; `none` is the error case
(`fs::file_size` reports an error for everything but a regular file). -/
def file_size (disk : Node) (p : List Char) : Option Nat :=
  match status disk p with
  | some (.file c) => some c.length
  | _ => none

/-- Remove a file or an empty directory (`fs::remove(p, ec)`); `none` is an
error code, an absent `p` is no error. -/
def remove (disk : Node) (p : List Char) : Option Node :=
  match status disk p with
  | none => some disk
  | some _ => disk.removeAt (parsePath p).comps

/-- Remove `p` and everything below it (`fs::remove_all`). -/
def remove_all (disk : Node) (p : List Char) : Node :=
  match status disk p with
  | none => disk
  | some _ => disk.eraseAt (parsePath p).comps

/-- Create one directory (`fs::create_directory`); `none` when nothing was
created: the call returned false or threw. -/
def create_directory (disk : Node) (p : List Char) : Option Node :=
  if p.isEmpty then none else disk.mkdirAt (parsePath p).comps

/-- Create a directory and its missing ancestors
(`fs::create_directories(p, ec)`, error code ignored). -/
def create_directories (disk : Node) (p : List Char) : Node :=
  if p.isEmpty then disk else disk.mkdirs (parsePath p).comps

/-- Write a whole file, creating or truncating it; fails for a path without
a file name. -/
def write_file (disk : Node) (p : List Char) (content : List Byte) : Option Node :=
  if p.isEmpty || (parsePath p).slash then none
  else disk.writeAt (parsePath p).comps content

/-- Rename a regular file (`fs::rename`); `none` when the call throws.  The
callers only pass a source whose size was read, so only regular files are
covered. -/
def rename (disk : Node) (src dst : List Char) : Option Node :=
  match status disk src with
  | some (.file c) =>
    match disk.removeAt (parsePath src).comps with
    | some disk1 => write_file disk1 dst c
    | none => none
  | _ => none

/-- Copy a regular file over `dst`
(`fs::copy_file(src, dst, overwrite_if_exists)`); `none` on error. -/
def copy_file (disk : Node) (src dst : List Char) : Option Node :=
  match status disk src with
  | some (.file c) => write_file disk dst c
  | _ => none

end fs

namespace maidsafe

/-- Modelled from the spec: `ReadFile` of utils.h, which is not part of the
sources; it reads a whole file and reports failure when the file cannot be
read (not found included). -/
def ReadFile (disk : Node) (p : List Char) : Option (List Byte) :=
  match fs.status disk p with
  | some (.file c) => some c
  | _ => none

/-- Modelled from the spec: `WriteFile` of utils.h, which is not part of the
sources; it creates or overwrites the file and reports failure when the
write fails. -/
def WriteFile (disk : Node) (p : List Char) (content : List Byte) : Option Node :=
  fs.write_file disk p content

/-- Modelled from the spec: the lower case hexadecimal digit of a value
below 16, the alphabet of `EncodeToHex`. -/
def hexDigit (n : Nat) : Char :=
  "0123456789abcdef".toList.getD n '0'

/-- Modelled from the spec: `EncodeToHex` of utils.h, which is not part of
the sources; the name is hex-encoded into a string of even length, two hex
characters per original byte. -/
def EncodeToHex : List Byte → List Char
  | [] => []
  | b :: bs => hexDigit (b.val / 16) :: hexDigit (b.val % 16) :: EncodeToHex bs

/-! ## The store object -/

/-- The member variables of a `FileChunkStore`, the two counters of its
`ChunkStore` base included. -/
structure FileChunkStore where
  initialised_ : Bool
  storage_location_ : List Char
  dir_depth_ : Int
  chunk_count_ : Nat
  size_ : Nat
  capacity_ : Nat
  deriving DecidableEq

namespace FileChunkStore

/-- Modelled from the spec: the constructor, declared in the absent header;
a new store is uninitialised with a zero ledger and capacity 0. -/
def ctor : FileChunkStore :=
  { initialised_ := false, storage_location_ := [], dir_depth_ := 0,
    chunk_count_ := 0, size_ := 0, capacity_ := 0 }

/-- Modelled from the spec: `IsChunkStoreInitialised` of the absent header,
the initialisation flag. -/
def IsChunkStoreInitialised (s : FileChunkStore) : Bool := s.initialised_

/-- Modelled from the spec: `ChunkStore::IncreaseSize` of the absent
chunk_store.h, an unsigned addition to the running total. -/
def IncreaseSize (s : FileChunkStore) (delta : Nat) : FileChunkStore :=
  { s with size_ := (s.size_ + delta) % UINTMAX_MOD }

/-- Modelled from the spec: `ChunkStore::DecreaseSize` of the absent
chunk_store.h, an unsigned subtraction that is not checked at run time. -/
def DecreaseSize (s : FileChunkStore) (delta : Nat) : FileChunkStore :=
  { s with size_ := (s.size_ + (UINTMAX_MOD - delta % UINTMAX_MOD)) % UINTMAX_MOD }

/-- Modelled from the spec: `IncreaseChunkCount` of the absent header. -/
def IncreaseChunkCount (s : FileChunkStore) : FileChunkStore :=
  { s with chunk_count_ := (s.chunk_count_ + 1) % UINTMAX_MOD }

/-- Modelled from the spec: `DecreaseChunkCount` of the absent header, an
unsigned decrement that is not checked at run time. -/
def DecreaseChunkCount (s : FileChunkStore) : FileChunkStore :=
  { s with chunk_count_ := (s.chunk_count_ + (UINTMAX_MOD - 1)) % UINTMAX_MOD }

/-- Modelled from the spec: `ResetChunkCount` of the absent header; the
argument defaults to 0 in the source. -/
def ResetChunkCount (s : FileChunkStore) (chunk_count : Nat) : FileChunkStore :=
  { s with chunk_count_ := chunk_count }

/-- Modelled from the spec: `ChunkStore::SetCapacity` of the absent
chunk_store.h. -/
def SetCapacity (s : FileChunkStore) (capacity : Nat) : FileChunkStore :=
  { s with capacity_ := capacity }

/-- Modelled from the spec: `ChunkStore::Clear` of the absent chunk_store.h;
it resets the capacity bookkeeping and zeroes the running total. -/
def ChunkStore_Clear (s : FileChunkStore) : FileChunkStore :=
  { s with capacity_ := 0, size_ := 0 }

/-- Modelled from the spec: `ChunkStore::Vacant` of the absent
chunk_store.h; true iff capacity is zero (unlimited) or
`total_size + n <= capacity`. -/
def Vacant (s : FileChunkStore) (required_size : Nat) : Bool :=
  s.capacity_ == 0 || decide (s.size_ + required_size ≤ s.capacity_)

/-- The method `ChunkAdded`. -/
def ChunkAdded (s : FileChunkStore) (delta : Nat) : FileChunkStore :=
  IncreaseChunkCount (IncreaseSize s delta)

/-- The method `ChunkRemoved`. -/
def ChunkRemoved (s : FileChunkStore) (delta : Nat) : FileChunkStore :=
  DecreaseChunkCount (DecreaseSize s delta)

/-- The `for` loop of `ChunkNameToFilePath` run for `k` iterations: iteration
`i` appends `/` and `encoded_file_name[i]`.  `none` when some iteration reads
at or beyond the size of the string. -/
def dirNamesLoop (encoded_file_name : List Char) : Nat → Option (List Char)
  | 0 => some []
  | k + 1 =>
    match dirNamesLoop encoded_file_name k, encoded_file_name[k]? with
    | some dir_names, some c => some (dir_names ++ ['/', c])
    | _, _ => none

/-- The call `encoded_file_name.erase(0, dir_depth_)`: the count is converted to
`size_t`, so a negative depth erases the whole string. -/
def eraseFront (encoded_file_name : List Char) (dir_depth : Int) : List Char :=
  if dir_depth < 0 then [] else encoded_file_name.drop dir_depth.toNat

/-- The method `ChunkNameToFilePath`: the path string of the chunk and the filesystem
after the optional creation of the shard directories. -/
def ChunkNameToFilePath (s : FileChunkStore) (disk : Node) (chunk_name : List Byte)
    (generate_dirs : Bool) : Option (List Char × Node) :=
  match dirNamesLoop (EncodeToHex chunk_name) s.dir_depth_.toNat with
  | none => none
  | some loop_names =>
    let dir_names := loop_names ++ ['/']
    let encoded_file_name := eraseFront (EncodeToHex chunk_name) s.dir_depth_
    let disk1 :=
      if generate_dirs then fs.create_directories disk (s.storage_location_ ++ dir_names)
      else disk
    some (s.storage_location_ ++ (dir_names ++ encoded_file_name), disk1)

mutual
/-- The method `RetrieveChunkInfo` on the object found at the location: a directory is
iterated, anything else makes the directory iterator throw, which is caught
and yields (0, 0). -/
def RetrieveChunkInfoNode : Node → Nat × Nat
  | .dir es => RetrieveChunkInfoLoop es (0, 0)
  | _ => (0, 0)
/-- The loop over the directory entries, with `chunk_store_info` as the
accumulator. -/
def RetrieveChunkInfoLoop : Entries → Nat × Nat → Nat × Nat
  | .nil, info => info
  | .cons _ (.file c) rest, info =>
    RetrieveChunkInfoLoop rest
      ((info.1 + 1) % UINTMAX_MOD, (info.2 + c.length) % UINTMAX_MOD)
  | .cons _ (.dir es) rest, info =>
    RetrieveChunkInfoLoop rest
      ((info.1 + (RetrieveChunkInfoLoop es (0, 0)).1) % UINTMAX_MOD,
       (info.2 + (RetrieveChunkInfoLoop es (0, 0)).2) % UINTMAX_MOD)
  | .cons _ .other rest, info => RetrieveChunkInfoLoop rest info
end

/-- The method `RetrieveChunkInfo(location)`. -/
def RetrieveChunkInfo (disk : Node) (location : List Char) : Nat × Nat :=
  match fs.status disk location with
  | some n => RetrieveChunkInfoNode n
  | none => (0, 0)

/-- The method `Init(storage_location, dir_depth)`: the result, the store and the
filesystem afterwards. -/
def Init (s : FileChunkStore) (disk : Node) (storage_location : List Char)
    (dir_depth : Int) : Bool × FileChunkStore × Node :=
  if fs.path_exists disk storage_location then
    let chunk_info := RetrieveChunkInfo disk storage_location
    let s2 := IncreaseSize (ResetChunkCount s chunk_info.1) chunk_info.2
    (true,
     { SetCapacity s2 0 with
       storage_location_ := storage_location
       dir_depth_ := if dir_depth > 63 then 63 else dir_depth
       initialised_ := true },
     disk)
  else
    match fs.create_directory disk storage_location with
    | some disk1 =>
      let s2 := ChunkStore_Clear (ResetChunkCount s 0)
      (true,
       { SetCapacity s2 0 with
         storage_location_ := storage_location
         dir_depth_ := if dir_depth > 63 then 63 else dir_depth
         initialised_ := true },
       disk1)
    | none => (false, s, disk)

/-- The method `Has(name)`. -/
def Has (s : FileChunkStore) (disk : Node) (name : List Byte) : Option Bool :=
  if !s.IsChunkStoreInitialised then some false
  else if name.isEmpty then some false
  else
    match ChunkNameToFilePath s disk name false with
    | none => none
    | some (chunk_file, _) => some (fs.path_exists disk chunk_file)

/-- The method `Get(name)`: the content, empty on failure. -/
def Get (s : FileChunkStore) (disk : Node) (name : List Byte) : Option (List Byte) :=
  if !s.IsChunkStoreInitialised then some []
  else
    match ChunkNameToFilePath s disk name false with
    | none => none
    | some (file_path, _) =>
      match ReadFile disk file_path with
      | some content => some content
      | none => some []

/-- The method `Get(name, sink_file_name)`.  On an uninitialised store the source
returns the string literal `""` from a function returning `bool`, which
converts to `true`. -/
def GetToFile (s : FileChunkStore) (disk : Node) (name : List Byte)
    (sink_file_name : List Char) : Option (Bool × Node) :=
  if !s.IsChunkStoreInitialised then some (true, disk)
  else
    match ChunkNameToFilePath s disk name false with
    | none => none
    | some (source_file_path, _) =>
      if fs.path_exists disk source_file_path then
        match fs.copy_file disk source_file_path sink_file_name with
        | some disk1 => some (true, disk1)
        | none => some (false, disk)
      else some (false, disk)

/-- The method `Store(name, content)`. -/
def Store (s : FileChunkStore) (disk : Node) (name content : List Byte) :
    Option (Bool × FileChunkStore × Node) :=
  if !s.IsChunkStoreInitialised then some (false, s, disk)
  else if name.isEmpty then some (false, s, disk)
  else
    match Has s disk name with
    | none => none
    | some true => some (true, s, disk)
    | some false =>
      match ChunkNameToFilePath s disk name true with
      | none => none
      | some (chunk_file, disk1) =>
        if content.isEmpty then some (false, s, disk1)
        else if !Vacant s content.length then some (false, s, disk1)
        else
          match WriteFile disk1 chunk_file content with
          | none => some (false, s, disk1)
          | some disk2 => some (true, ChunkAdded s content.length, disk2)

/-- The method `Store(name, source_file_name, delete_source_file)`. -/
def StoreFromFile (s : FileChunkStore) (disk : Node) (name : List Byte)
    (source_file_name : List Char) (delete_source_file : Bool) :
    Option (Bool × FileChunkStore × Node) :=
  if !s.IsChunkStoreInitialised then some (false, s, disk)
  else if name.isEmpty then some (false, s, disk)
  else
    match ChunkNameToFilePath s disk name true with
    | none => none
    | some (chunk_file, disk1) =>
      if !fs.path_exists disk1 chunk_file then
        match fs.file_size disk1 source_file_name with
        | some file_size =>
          if file_size != 0 then
            if !Vacant s file_size then some (false, s, disk1)
            else
              match (if delete_source_file then fs.rename disk1 source_file_name chunk_file
                     else fs.copy_file disk1 source_file_name chunk_file) with
              | some disk2 => some (true, ChunkAdded s file_size, disk2)
              | none => some (false, s, disk1)
          else some (false, s, disk1)
        | none => some (false, s, disk1)
      else
        if delete_source_file then
          match fs.remove disk1 source_file_name with
          | some disk2 => some (true, s, disk2)
          | none => some (true, s, disk1)
        else some (true, s, disk1)

/-- The method `Size(name)`: 0 when the size cannot be read. -/
def Size (s : FileChunkStore) (disk : Node) (name : List Byte) : Option Nat :=
  if !s.IsChunkStoreInitialised then some 0
  else if name.isEmpty then some 0
  else
    match ChunkNameToFilePath s disk name false with
    | none => none
    | some (chunk_file, _) =>
      match fs.file_size disk chunk_file with
      | some size => some size
      | none => some 0

/-- The method `Delete(name)`.  `fs::file_size(p, ec)` yields `uintmax_t(-1)` on error
and the error code is then overwritten by `fs::remove`. -/
def Delete (s : FileChunkStore) (disk : Node) (name : List Byte) :
    Option (Bool × FileChunkStore × Node) :=
  if !s.IsChunkStoreInitialised then some (false, s, disk)
  else if name.isEmpty then some (false, s, disk)
  else
    match Has s disk name with
    | none => none
    | some false => some (true, s, disk)
    | some true =>
      match ChunkNameToFilePath s disk name false with
      | none => none
      | some (chunk_file, _) =>
        let file_size := (fs.file_size disk chunk_file).getD (UINTMAX_MOD - 1)
        match fs.remove disk chunk_file with
        | none => some (false, s, disk)
        | some disk1 => some (true, ChunkRemoved s file_size, disk1)

/-- The method `MoveTo(name, sink_chunk_store)` with another file chunk store as the
sink (`none` is the null pointer): the result, this store, the sink and the
filesystem afterwards. -/
def MoveTo (s : FileChunkStore) (disk : Node) (name : List Byte)
    (sink_chunk_store : Option FileChunkStore) :
    Option (Bool × FileChunkStore × Option FileChunkStore × Node) :=
  if !s.IsChunkStoreInitialised then some (false, s, sink_chunk_store, disk)
  else
    match sink_chunk_store with
    | none => some (false, s, none, disk)
    | some sink =>
      if name.isEmpty then some (false, s, some sink, disk)
      else
        match Has s disk name with
        | none => none
        | some false => some (false, s, some sink, disk)
        | some true =>
          match ChunkNameToFilePath s disk name false with
          | none => none
          | some (chunk_file, _) =>
            match Size s disk name with
            | none => none
            | some file_size =>
              match StoreFromFile sink disk name chunk_file true with
              | none => none
              | some (true, sink1, disk1) =>
                some (true, ChunkRemoved s file_size, some sink1, disk1)
              | some (false, sink1, disk1) => some (false, s, some sink1, disk1)

/-- The method `Validate(name)`, with the external digest `crypto::Hash<SHA512>` as a
parameter. -/
def Validate (Hash : List Byte → List Byte) (s : FileChunkStore) (disk : Node)
    (name : List Byte) : Option (Bool × FileChunkStore × Node) :=
  if !s.IsChunkStoreInitialised then some (false, s, disk)
  else if name.isEmpty then some (false, s, disk)
  else
    match Get s disk name with
    | none => none
    | some content =>
      if name = Hash content then some (true, s, disk)
      else
        match Size s disk name with
        | none => none
        | some size =>
          match Delete (ChunkRemoved s size) disk name with
          | none => none
          | some (_, s2, disk2) => some (false, s2, disk2)

/-- The method `Count()`. -/
def Count (s : FileChunkStore) : Nat :=
  if !s.IsChunkStoreInitialised then 0 else s.chunk_count_

/-- The method `Empty()`. -/
def Empty (s : FileChunkStore) : Bool :=
  !s.IsChunkStoreInitialised || s.chunk_count_ == 0

/-- The method `Clear()`. -/
def Clear (s : FileChunkStore) (disk : Node) : FileChunkStore × Node :=
  (ResetChunkCount (ChunkStore_Clear s) 0, fs.remove_all disk s.storage_location_)

end FileChunkStore

/-! ## Reference notions used by the statements -/

/-- The characters of a list, each preceded by a `/`: the shape of the
shard directories `/h0/h1/...`. -/
def slashed : List Char → List Char
  | [] => []
  | c :: cs => '/' :: c :: slashed cs

/-- The path string of the shard directory of a chunk: the root followed by
`/h0/h1/.../` for the first `dir_depth_` hex characters of the name. -/
def shardDir (s : FileChunkStore) (name : List Byte) : List Char :=
  s.storage_location_ ++
    (slashed ((EncodeToHex name).take s.dir_depth_.toNat) ++ ['/'])

/-- The path string of a chunk file: the shard directory followed by the
remaining hex characters of the name. -/
def chunkFile (s : FileChunkStore) (name : List Byte) : List Char :=
  s.storage_location_ ++
    (slashed ((EncodeToHex name).take s.dir_depth_.toNat) ++
      '/' :: (EncodeToHex name).drop s.dir_depth_.toNat)

mutual
/-- The number of regular files anywhere below a node. -/
def Node.regularFiles : Node → Nat
  | .dir es => es.regularFiles
  | _ => 0
/-- The number of regular files in and below the entries of a directory. -/
def Entries.regularFiles : Entries → Nat
  | .nil => 0
  | .cons _ (.file _) rest => 1 + rest.regularFiles
  | .cons _ (.dir es) rest => es.regularFiles + rest.regularFiles
  | .cons _ .other rest => rest.regularFiles
end

mutual
/-- The sum of the sizes of the regular files anywhere below a node. -/
def Node.regularBytes : Node → Nat
  | .dir es => es.regularBytes
  | _ => 0
/-- The sum of the sizes of the regular files in and below the entries of a
directory. -/
def Entries.regularBytes : Entries → Nat
  | .nil => 0
  | .cons _ (.file c) rest => c.length + rest.regularBytes
  | .cons _ (.dir es) rest => es.regularBytes + rest.regularBytes
  | .cons _ .other rest => rest.regularBytes
end

/-- The number and the total size of the chunk files under the root of a
store, as found on the filesystem. -/
def chunksOnDisk (s : FileChunkStore) (disk : Node) : Nat × Nat :=
  match fs.status disk s.storage_location_ with
  | some n => (n.regularFiles, n.regularBytes)
  | none => (0, 0)

/-- The ledger invariant of the data model: `chunk_count` is the number of
chunk files under the root and `total_size` the sum of their sizes. -/
def LedgerInvariant (s : FileChunkStore) (disk : Node) : Bool :=
  s.chunk_count_ == (chunksOnDisk s disk).1 && s.size_ == (chunksOnDisk s disk).2

/-! ## Concrete filesystems and stores used in the examples -/

/-- A filesystem that holds only the empty directory `/r`. -/
def exampleDisk : Node := .dir (.cons ['r'] (.dir .nil) .nil)

/-- The store object right after `Init("/r", 2)` on `exampleDisk`. -/
def exampleStore : FileChunkStore :=
  { initialised_ := true, storage_location_ := ['/', 'r'], dir_depth_ := 2,
    chunk_count_ := 0, size_ := 0, capacity_ := 0 }

/-- The chunk name `ab`, hex `6162`. -/
def nameAB : List Byte := [0x61, 0x62]

/-- The chunk name `cd`, hex `6364`. -/
def nameCD : List Byte := [0x63, 0x64]

/-- The filesystem after storing the byte 1 under `ab`: the file
`/r/6/1/62`. -/
def diskAB : Node :=
  .dir (.cons ['r'] (.dir (.cons ['6'] (.dir (.cons ['1'] (.dir
    (.cons ['6', '2'] (.file [1]) .nil)) .nil)) .nil)) .nil)

/-- The store after storing the byte 1 under `ab`. -/
def storeAB : FileChunkStore := { exampleStore with chunk_count_ := 1, size_ := 1 }

/-- The filesystem after storing the byte 1 under `ab` and three bytes under
`cd`: the files `/r/6/1/62` and `/r/6/3/64`. -/
def diskABCD : Node :=
  .dir (.cons ['r'] (.dir (.cons ['6'] (.dir
    (.cons ['1'] (.dir (.cons ['6', '2'] (.file [1]) .nil))
    (.cons ['3'] (.dir (.cons ['6', '4'] (.file [4, 5, 6]) .nil)) .nil))) .nil)) .nil)

/-- The store after storing the byte 1 under `ab` and three bytes under `cd`. -/
def storeABCD : FileChunkStore := { exampleStore with chunk_count_ := 2, size_ := 4 }

/-- The filesystem `diskABCD` after the removal of `/r/6/1/62`. -/
def diskCD : Node :=
  .dir (.cons ['r'] (.dir (.cons ['6'] (.dir
    (.cons ['1'] (.dir .nil)
    (.cons ['3'] (.dir (.cons ['6', '4'] (.file [4, 5, 6]) .nil)) .nil))) .nil)) .nil)

/-- The store object that `Validate(ab)` leaves behind on `storeABCD`. -/
def storeAfterValidate : FileChunkStore := { exampleStore with chunk_count_ := 0, size_ := 2 }

/-- A filesystem with the empty store root `/r` and a six byte file `/src`. -/
def diskSrc : Node :=
  .dir (.cons ['r'] (.dir .nil) (.cons ['s', 'r', 'c'] (.file [1, 2, 3, 4, 5, 6]) .nil))

/-- The store `exampleStore` after `SetCapacity(5)`. -/
def storeCap : FileChunkStore := { exampleStore with capacity_ := 5 }

/-- A filesystem where the chunk stored under `ab` holds the bytes `ab`
themselves: the file `/r/6/1/62`. -/
def diskValid : Node :=
  .dir (.cons ['r'] (.dir (.cons ['6'] (.dir (.cons ['1'] (.dir
    (.cons ['6', '2'] (.file [0x61, 0x62]) .nil)) .nil)) .nil)) .nil)

/-- The store after storing the bytes `ab` under `ab`. -/
def storeValid : FileChunkStore := { exampleStore with chunk_count_ := 1, size_ := 2 }

/-- A filesystem with two store roots: `/a` holds the chunk `ab` as the one
byte file `/a/6/1/62`, and `/b` is empty. -/
def diskMove : Node :=
  .dir (.cons ['a'] (.dir (.cons ['6'] (.dir (.cons ['1'] (.dir
      (.cons ['6', '2'] (.file [1]) .nil)) .nil)) .nil))
    (.cons ['b'] (.dir .nil) .nil))

/-- The filesystem `diskMove` after the chunk `ab` has moved to `/b/6/1/62`. -/
def diskMoved : Node :=
  .dir (.cons ['a'] (.dir (.cons ['6'] (.dir (.cons ['1'] (.dir .nil) .nil)) .nil))
    (.cons ['b'] (.dir (.cons ['6'] (.dir (.cons ['1'] (.dir
      (.cons ['6', '2'] (.file [1]) .nil)) .nil)) .nil)) .nil))

/-- As `diskMove`, but the chunk file `/a/6/1/62` is empty. -/
def diskMoveEmpty : Node :=
  .dir (.cons ['a'] (.dir (.cons ['6'] (.dir (.cons ['1'] (.dir
      (.cons ['6', '2'] (.file []) .nil)) .nil)) .nil))
    (.cons ['b'] (.dir .nil) .nil))

/-- As `diskMove`, but the root `/b` holds a regular file called `6`, where
the shard directory of `ab` would have to be created. -/
def diskMoveBlocked : Node :=
  .dir (.cons ['a'] (.dir (.cons ['6'] (.dir (.cons ['1'] (.dir
      (.cons ['6', '2'] (.file [1]) .nil)) .nil)) .nil))
    (.cons ['b'] (.dir (.cons ['6'] (.file [9]) .nil)) .nil))

/-- The store on the root `/a` with depth 2, one chunk of one byte. -/
def storeA : FileChunkStore :=
  { initialised_ := true, storage_location_ := ['/', 'a'], dir_depth_ := 2,
    chunk_count_ := 1, size_ := 1, capacity_ := 0 }

/-- The store on the root `/a` with depth 2, one chunk of no bytes. -/
def storeAEmpty : FileChunkStore := { storeA with size_ := 0 }

/-- The store on the empty root `/b` with depth 2. -/
def storeB : FileChunkStore :=
  { initialised_ := true, storage_location_ := ['/', 'b'], dir_depth_ := 2,
    chunk_count_ := 0, size_ := 0, capacity_ := 0 }

/-- The store on the root `/b` of `diskMoveBlocked`, as `Init` leaves it. -/
def storeBBlocked : FileChunkStore := { storeB with chunk_count_ := 1, size_ := 1 }

/-- The store object right after `Init("/r", 5)` on `exampleDisk`: the
default shard depth. -/
def storeDepth5 : FileChunkStore := { exampleStore with dir_depth_ := 5 }

/-- A directory tree with nesting: the files `x` (2 bytes), `d/y` (1 byte) and
`d/e/w` (3 bytes), and the special objects `d/z` and `q`. -/
def treeNested : Node :=
  .dir (.cons ['x'] (.file [1, 2])
    (.cons ['d'] (.dir (.cons ['y'] (.file [3])
      (.cons ['z'] .other
      (.cons ['e'] (.dir (.cons ['w'] (.file [4, 5, 6]) .nil)) .nil))))
    (.cons ['q'] .other .nil)))

/-- A filesystem that holds `treeNested` as the directory `/r`. -/
def diskNested : Node := .dir (.cons ['r'] treeNested .nil)

/-- The filesystem `diskAB` with one more file, `/src`, of one byte. -/
def diskABSrc : Node :=
  .dir (.cons ['r'] (.dir (.cons ['6'] (.dir (.cons ['1'] (.dir
      (.cons ['6', '2'] (.file [1]) .nil)) .nil)) .nil))
    (.cons ['s', 'r', 'c'] (.file [9]) .nil))

/-- A stand-in digest for the examples: the content itself is its digest. -/
def toyHash (content : List Byte) : List Byte := content

end maidsafe

/-! ## Lemmas on the filesystem model -/

namespace maidsafe

theorem Entries.find_set_same : ∀ (es : Entries) (k : List Char) (v : Node),
    (es.set k v).find k = some v
  | .nil, k, v => by simp [Entries.set, Entries.find]
  | .cons k2 w rest, k, v => by
    have ih := Entries.find_set_same rest k v
    by_cases h : k2 = k
    · simp [Entries.set, Entries.find, h]
    · simp [Entries.set, Entries.find, h, ih]

theorem Entries.find_set_other : ∀ (es : Entries) (k k2 : List Char) (v : Node),
    k ≠ k2 → (es.set k v).find k2 = es.find k2
  | .nil, k, k2, v, h => by simp [Entries.set, Entries.find, h]
  | .cons k3 w rest, k, k2, v, h => by
    have ih := Entries.find_set_other rest k k2 v h
    by_cases h3 : k3 = k
    · subst h3; simp [Entries.set, Entries.find, h]
    · by_cases h4 : k3 = k2
      · subst h4; simp [Entries.set, Entries.find, h3]
      · simp [Entries.set, Entries.find, h3, h4, ih]

theorem Entries.find_erase_same : ∀ (es : Entries) (k : List Char),
    (es.erase k).find k = none
  | .nil, k => by simp [Entries.erase, Entries.find]
  | .cons k2 w rest, k => by
    have ih := Entries.find_erase_same rest k
    by_cases h : k2 = k
    · simp [Entries.erase, h, ih]
    · simp [Entries.erase, Entries.find, h, ih]

theorem Entries.find_erase_other : ∀ (es : Entries) (k k2 : List Char),
    k ≠ k2 → (es.erase k).find k2 = es.find k2
  | .nil, k, k2, h => by simp [Entries.erase, Entries.find]
  | .cons k3 w rest, k, k2, h => by
    have ih := Entries.find_erase_other rest k k2 h
    by_cases h3 : k3 = k
    · subst h3; simp [Entries.erase, Entries.find, h, ih]
    · by_cases h4 : k3 = k2
      · subst h4; simp [Entries.erase, Entries.find, h3]
      · simp [Entries.erase, Entries.find, h3, h4, ih]

/-- A file that was written can be looked up. -/
theorem Node.lookup_writeAt : ∀ (p : List (List Char)) (n n2 : Node) (data : List Byte),
    n.writeAt p data = some n2 → n2.lookup p = some (.file data) := by
  intro p
  induction p with
  | nil => intro n n2 data h; cases n <;> simp [Node.writeAt] at h
  | cons c cs ih =>
    intro n n2 data h
    cases n with
    | file _ => simp [Node.writeAt] at h
    | other => simp [Node.writeAt] at h
    | dir es =>
      cases cs with
      | nil =>
        simp only [Node.writeAt] at h
        split at h
        · simp at h; subst h; simp [Node.lookup, Entries.find_set_same]
        · simp at h; subst h; simp [Node.lookup, Entries.find_set_same]
        · simp at h
      | cons c2 cs2 =>
        simp only [Node.writeAt] at h
        split at h
        · rename_i m hm
          split at h
          · rename_i m2 hm2
            simp at h; subst h
            simp only [Node.lookup, Entries.find_set_same]
            exact ih m m2 data hm2
          · simp at h
        · simp at h

theorem Node.lookup_nondir_cons (n : Node) (c : List Char) (cs : List (List Char))
    (h : ∀ es, n ≠ .dir es) : n.lookup (c :: cs) = none := by
  cases n with
  | dir es => exact absurd rfl (h es)
  | file _ => rfl
  | other => rfl

theorem Node.lookup_dir_cons (es : Entries) (c : List Char) (cs : List (List Char)) :
    (Node.dir es).lookup (c :: cs) = (es.find c).bind (fun m => m.lookup cs) := by
  simp only [Node.lookup]
  cases es.find c <;> rfl

/-- After a successful removal nothing is found at the path. -/
theorem Node.lookup_removeAt : ∀ (p : List (List Char)) (n n2 : Node),
    n.removeAt p = some n2 → n2.lookup p = none := by
  intro p
  induction p with
  | nil => intro n n2 h; cases n <;> simp [Node.removeAt] at h
  | cons c cs ih =>
    intro n n2 h
    cases n with
    | file _ => simp [Node.removeAt] at h; subst h; rfl
    | other => simp [Node.removeAt] at h; subst h; rfl
    | dir es =>
      cases cs with
      | nil =>
        simp only [Node.removeAt] at h
        split at h
        · rename_i hf
          simp at h; subst h; simp [Node.lookup_dir_cons, hf]
        · split at h
          · simp at h; subst h; simp [Node.lookup_dir_cons, Entries.find_erase_same]
          · simp at h
        · simp at h; subst h; simp [Node.lookup_dir_cons, Entries.find_erase_same]
      | cons c2 cs2 =>
        simp only [Node.removeAt] at h
        split at h
        · rename_i m hm
          split at h
          · rename_i m2 hm2
            simp at h; subst h
            simp only [Node.lookup_dir_cons, Entries.find_set_same, Option.bind]
            exact ih m m2 hm2
          · simp at h
        · rename_i hf
          simp at h; subst h; simp [Node.lookup_dir_cons, hf]

/-- A regular file can always be removed. -/
theorem Node.removeAt_file : ∀ (p : List (List Char)) (n : Node) (c : List Byte),
    p ≠ [] → n.lookup p = some (.file c) → ∃ n2, n.removeAt p = some n2 := by
  intro p
  induction p with
  | nil => intro n c h; exact absurd rfl h
  | cons k ks ih =>
    intro n c _ h
    cases n with
    | file _ => simp [Node.lookup] at h
    | other => simp [Node.lookup] at h
    | dir es =>
      rw [Node.lookup_dir_cons] at h
      cases hf : es.find k with
      | none => simp [hf] at h
      | some m =>
        simp only [hf, Option.bind] at h
        cases ks with
        | nil =>
          simp only [Node.lookup] at h
          simp at h; subst h
          exact ⟨.dir (es.erase k), by simp [Node.removeAt, hf]⟩
        | cons k2 ks2 =>
          obtain ⟨m2, hm2⟩ := ih m c (by simp) h
          exact ⟨.dir (es.set k m2), by simp [Node.removeAt, hf, hm2]⟩

/-- Creating directories along `p` does not change what lies strictly below `p`. -/
theorem Node.lookup_mkdirs_below : ∀ (p : List (List Char)) (n : Node) (x : List Char)
    (r : List (List Char)), (n.mkdirs p).lookup (p ++ x :: r) = n.lookup (p ++ x :: r) := by
  intro p
  induction p with
  | nil => intro n x r; cases n <;> rfl
  | cons c cs ih =>
    intro n x r
    cases n with
    | file _ => rfl
    | other => rfl
    | dir es =>
      simp only [Node.mkdirs, List.cons_append]
      cases hf : es.find c with
      | some m =>
        simp only [Node.lookup_dir_cons, Entries.find_set_same, hf, Option.bind]
        exact ih m x r
      | none =>
        simp only [Node.lookup_dir_cons, Entries.find_set_same, hf, Option.bind]
        rw [ih]
        cases cs <;> simp [Node.lookup_dir_cons, Entries.find]

/-- Creating directories leaves every regular file in place. -/
theorem Node.lookup_mkdirs_file : ∀ (p : List (List Char)) (n : Node) (q : List (List Char))
    (c : List Byte), n.lookup q = some (.file c) → (n.mkdirs p).lookup q = some (.file c) := by
  intro p
  induction p with
  | nil => intro n q c h; cases n <;> exact h
  | cons k ks ih =>
    intro n q c h
    cases n with
    | file _ => exact h
    | other => exact h
    | dir es =>
      cases q with
      | nil => simp [Node.lookup] at h
      | cons k2 qs =>
        rw [Node.lookup_dir_cons] at h
        cases hf2 : es.find k2 with
        | none => simp [hf2] at h
        | some m =>
          simp only [hf2, Option.bind] at h
          simp only [Node.mkdirs]
          by_cases hk : k = k2
          · subst hk
            simp only [hf2, Node.lookup_dir_cons, Entries.find_set_same, Option.bind]
            exact ih m qs c h
          · cases hf : es.find k with
            | some m0 =>
              simp only [Node.lookup_dir_cons, Entries.find_set_other _ _ _ _ hk, hf2, Option.bind]
              exact h
            | none =>
              simp only [Node.lookup_dir_cons, Entries.find_set_other _ _ _ _ hk, hf2, Option.bind]
              exact h

/-- Writing a file at `q` puts nothing at another path that was vacant. -/
theorem Node.lookup_writeAt_other : ∀ (q : List (List Char)) (n n2 : Node) (data : List Byte)
    (p : List (List Char)), n.writeAt q data = some n2 → p ≠ q → n.lookup p = none →
    n2.lookup p = none := by
  intro q
  induction q with
  | nil => intro n n2 data p h; cases n <;> simp [Node.writeAt] at h
  | cons c cs ih =>
    intro n n2 data p h hne hp
    cases n with
    | file _ => simp [Node.writeAt] at h
    | other => simp [Node.writeAt] at h
    | dir es =>
      cases p with
      | nil => simp [Node.lookup] at hp
      | cons c1 ps =>
        rw [Node.lookup_dir_cons] at hp
        cases cs with
        | nil =>
          have hn2 : n2 = .dir (es.set c (.file data)) := by
            simp only [Node.writeAt] at h
            split at h <;> simp at h <;> exact h.symm
          subst hn2
          rw [Node.lookup_dir_cons]
          by_cases hc : c = c1
          · subst hc
            rw [Entries.find_set_same]
            cases ps with
            | nil => exact absurd rfl hne
            | cons _ _ => rfl
          · rw [Entries.find_set_other _ _ _ _ hc]; exact hp
        | cons c2 cs2 =>
          simp only [Node.writeAt] at h
          split at h
          · rename_i m hm
            split at h
            · rename_i m2 hm2
              simp at h; subst h
              rw [Node.lookup_dir_cons]
              by_cases hc : c = c1
              · subst hc
                rw [Entries.find_set_same]
                simp only [hm, Option.bind] at hp
                simp only [Option.bind]
                exact ih m m2 data ps hm2 (fun e => hne (by rw [e])) hp
              · rw [Entries.find_set_other _ _ _ _ hc]; exact hp
            · simp at h
          · simp at h

/-! ## Lemmas on path strings -/

theorem splitPath_ne_nil (p : List Char) : splitPath p ≠ [] := by
  cases p with
  | nil => simp [splitPath]
  | cons c cs =>
    simp only [splitPath]
    split
    · simp
    · split <;> simp

theorem splitPath_append_slash (xs ys : List Char) :
    splitPath (xs ++ '/' :: ys) = splitPath xs ++ splitPath ys := by
  induction xs with
  | nil => simp [splitPath]
  | cons x xs ih =>
    by_cases hx : x = '/'
    · simp [splitPath, hx, ih]
    · simp only [List.cons_append, splitPath, hx, if_false]
      have ih2 : splitPath (xs.append ('/' :: ys)) = splitPath xs ++ splitPath ys := ih
      rw [ih2]
      cases hs : splitPath xs with
      | nil => exact absurd hs (splitPath_ne_nil xs)
      | cons w ws => simp

theorem splitPath_no_slash (w : List Char) (h : ∀ c ∈ w, c ≠ '/') : splitPath w = [w] := by
  induction w with
  | nil => rfl
  | cons c cs ih =>
    have hc : c ≠ '/' := h c (by simp)
    have := ih (fun d hd => h d (by simp [hd]))
    simp [splitPath, hc, this]

theorem splitPath_slashed (hs leaf : List Char) (h1 : ∀ c ∈ hs, c ≠ '/')
    (h2 : ∀ c ∈ leaf, c ≠ '/') :
    splitPath (slashed hs ++ '/' :: leaf) = [] :: (hs.map (fun c => [c]) ++ [leaf]) := by
  induction hs with
  | nil => simp [slashed, splitPath, splitPath_no_slash leaf h2]
  | cons c cs ih =>
    have hc : c ≠ '/' := h1 c (by simp)
    have := ih (fun d hd => h1 d (by simp [hd]))
    simp [slashed, splitPath, hc, this]

theorem slashed_append (xs ys : List Char) : slashed (xs ++ ys) = slashed xs ++ slashed ys := by
  induction xs with
  | nil => rfl
  | cons x xs ih => simp [slashed, ih]

theorem slashed_length (xs : List Char) : (slashed xs).length = 2 * xs.length := by
  induction xs with
  | nil => rfl
  | cons x xs ih => simp [slashed, ih]; omega

/-- The components of `root ++ "/h0/h1/.../" ++ leaf`. -/
theorem parsePath_chunk_comps (root hs leaf : List Char) (h1 : ∀ c ∈ hs, c ≠ '/')
    (h2 : ∀ c ∈ leaf, c ≠ '/') :
    (parsePath (root ++ (slashed hs ++ '/' :: leaf))).comps =
      (parsePath root).comps ++ (hs.map (fun c => [c]) ++ (if leaf = [] then [] else [leaf])) := by
  have key : splitPath (root ++ (slashed hs ++ '/' :: leaf)) =
      splitPath root ++ (hs.map (fun c => [c]) ++ [leaf]) := by
    cases hs with
    | nil => simp [slashed, splitPath_append_slash, splitPath_no_slash leaf h2]
    | cons c cs =>
      have hc : c ≠ '/' := h1 c (by simp)
      have h3 := splitPath_slashed cs leaf (fun d hd => h1 d (by simp [hd])) h2
      simp only [slashed, List.cons_append, splitPath_append_slash, splitPath, hc, if_false, h3]
      simp
  simp only [parsePath, key, List.filter_append]
  congr 1
  congr 1
  · rw [List.filter_eq_self]
    intro w hw
    simp at hw
    obtain ⟨c, _, rfl⟩ := hw
    rfl
  · by_cases hl : leaf = []
    · simp [hl]
    · cases leaf with
      | nil => exact absurd rfl hl
      | cons _ _ => simp

theorem parsePath_chunk_slash (root hs leaf : List Char) (h2 : ∀ c ∈ leaf, c ≠ '/') :
    (parsePath (root ++ (slashed hs ++ '/' :: leaf))).slash = decide (leaf = []) := by
  simp only [parsePath]
  rw [← List.append_assoc]
  by_cases hl : leaf = []
  · subst hl; simp [List.getLast?_append]
  · have hne : '/' :: leaf ≠ [] := by simp
    obtain ⟨init, last, hlast⟩ : ∃ init last, leaf = init ++ [last] := by
      refine ⟨leaf.dropLast, leaf.getLast hl, ?_⟩
      exact (List.dropLast_append_getLast hl).symm
    have hlastne : last ≠ '/' := h2 last (by simp [hlast])
    subst hlast
    have : (root ++ slashed hs) ++ '/' :: (init ++ [last]) =
        ((root ++ slashed hs) ++ '/' :: init) ++ [last] := by simp
    rw [this, List.getLast?_concat]
    simp [hlastne]

theorem hexDigit_ne_slash (n : Nat) : hexDigit n ≠ '/' := by
  by_cases h : n < 16
  · interval_cases n <;> decide
  · have : hexDigit n = '0' := by
      unfold hexDigit
      rw [List.getD_eq_default]
      simpa using h
    rw [this]; decide

theorem hexDigit_inj (a b : Nat) (ha : a < 16) (hb : b < 16) (h : hexDigit a = hexDigit b) :
    a = b := by
  interval_cases a <;> interval_cases b <;> first | rfl | (exact absurd h (by decide))

theorem EncodeToHex_length (name : List Byte) : (EncodeToHex name).length = 2 * name.length := by
  induction name with
  | nil => rfl
  | cons b bs ih => simp [EncodeToHex, ih]; omega

theorem EncodeToHex_no_slash (name : List Byte) : ∀ c ∈ EncodeToHex name, c ≠ '/' := by
  induction name with
  | nil => intro c hc; simp [EncodeToHex] at hc
  | cons b bs ih =>
    intro c hc
    simp only [EncodeToHex, List.mem_cons] at hc
    rcases hc with rfl | rfl | hc
    · exact hexDigit_ne_slash _
    · exact hexDigit_ne_slash _
    · exact ih c hc

theorem EncodeToHex_inj : ∀ (a b : List Byte), EncodeToHex a = EncodeToHex b → a = b := by
  intro a
  induction a with
  | nil =>
    intro b h
    cases b with
    | nil => rfl
    | cons _ _ => simp [EncodeToHex] at h
  | cons x xs ih =>
    intro b h
    cases b with
    | nil => simp [EncodeToHex] at h
    | cons y ys =>
      simp only [EncodeToHex, List.cons.injEq] at h
      obtain ⟨h1, h2, h3⟩ := h
      have hx := x.isLt
      have hy := y.isLt
      have e1 := hexDigit_inj _ _ (by omega) (by omega) h1
      have e2 := hexDigit_inj _ _ (by omega) (by omega) h2
      have : x = y := Fin.ext (by omega)
      rw [this, ih ys h3]

namespace FileChunkStore

theorem dirNamesLoop_eq (hex : List Char) : ∀ k, k ≤ hex.length →
    dirNamesLoop hex k = some (slashed (hex.take k)) := by
  intro k
  induction k with
  | zero => intro _; simp [dirNamesLoop, slashed]
  | succ k ih =>
    intro hk
    have hlt : k < hex.length := by omega
    have hget : hex[k]? = some hex[k] := List.getElem?_eq_getElem hlt
    simp only [dirNamesLoop, ih (by omega), hget]
    have : hex.take (k + 1) = hex.take k ++ [hex[k]] := by
      rw [List.take_succ]; simp [hget]
    rw [this, slashed_append]
    rfl

theorem dirNamesLoop_some_le (hex : List Char) : ∀ k x, dirNamesLoop hex k = some x →
    k ≤ hex.length := by
  intro k
  induction k with
  | zero => intro _ _; omega
  | succ k ih =>
    intro x h
    simp only [dirNamesLoop] at h
    cases hl : dirNamesLoop hex k with
    | none => simp [hl] at h
    | some y =>
      cases hg : hex[k]? with
      | none => simp [hl, hg] at h
      | some c =>
        have : k < hex.length := by
          by_contra hc
          have : hex[k]? = none := List.getElem?_eq_none (by omega)
          simp [this] at hg
        omega

/-- The path string computed for a name whose hex encoding is long enough. -/
theorem ChunkNameToFilePath_eq (s : FileChunkStore) (disk : Node) (name : List Byte)
    (g : Bool) (h0 : 0 ≤ s.dir_depth_) (h1 : s.dir_depth_.toNat ≤ (EncodeToHex name).length) :
    ChunkNameToFilePath s disk name g =
      some (chunkFile s name,
            if g then fs.create_directories disk (shardDir s name) else disk) := by
  have hneg : ¬ s.dir_depth_ < 0 := by omega
  simp [ChunkNameToFilePath, dirNamesLoop_eq _ _ h1, eraseFront, hneg, chunkFile, shardDir]

/-- The path string does not depend on the filesystem, on `generate_dirs` or on
the ledger. -/
theorem ChunkNameToFilePath_fst (s s2 : FileChunkStore) (disk disk2 : Node) (name : List Byte)
    (g g2 : Bool) (hl : s2.storage_location_ = s.storage_location_)
    (hd : s2.dir_depth_ = s.dir_depth_) :
    (ChunkNameToFilePath s2 disk2 name g2).map Prod.fst =
      (ChunkNameToFilePath s disk name g).map Prod.fst := by
  simp only [ChunkNameToFilePath, hl, hd]
  cases dirNamesLoop (EncodeToHex name) s.dir_depth_.toNat <;> rfl

/-- With `generate_dirs` false the filesystem is returned as it was, and the
path is the one every store with the same root and depth computes. -/
theorem ChunkNameToFilePath_false (s s2 : FileChunkStore) (disk disk1 disk2 : Node)
    (name : List Byte) (g : Bool) (p : List Char)
    (hl : s2.storage_location_ = s.storage_location_) (hd : s2.dir_depth_ = s.dir_depth_)
    (h : ChunkNameToFilePath s disk name g = some (p, disk1)) :
    ChunkNameToFilePath s2 disk2 name false = some (p, disk2) := by
  simp only [ChunkNameToFilePath, hl, hd] at h ⊢
  cases hk : dirNamesLoop (EncodeToHex name) s.dir_depth_.toNat with
  | none => simp [hk] at h
  | some x =>
    simp only [hk, Option.some.injEq, Prod.mk.injEq] at h
    simp [← h.1]

end FileChunkStore

theorem fs.status_write_file (disk disk2 : Node) (p : List Char) (c : List Byte)
    (h : fs.write_file disk p c = some disk2) : fs.status disk2 p = some (.file c) := by
  unfold fs.write_file at h
  split at h
  · simp at h
  · rename_i hc
    simp only [Bool.or_eq_true, not_or, Bool.not_eq_true] at hc
    have hl := Node.lookup_writeAt _ _ _ _ h
    simp [fs.status, hc.1, hc.2, hl]

theorem chunkFile_ne_nil (s : FileChunkStore) (name : List Byte) :
    (chunkFile s name).isEmpty = false := by
  simp [chunkFile]

theorem shardDir_ne_nil (s : FileChunkStore) (name : List Byte) :
    (shardDir s name).isEmpty = false := by
  simp [shardDir]

theorem parsePath_shardDir (s : FileChunkStore) (name : List Byte) :
    (parsePath (shardDir s name)).comps =
      (parsePath s.storage_location_).comps ++
        ((EncodeToHex name).take s.dir_depth_.toNat).map (fun c => [c]) := by
  have h := parsePath_chunk_comps s.storage_location_
    ((EncodeToHex name).take s.dir_depth_.toNat) []
    (fun c hc => EncodeToHex_no_slash name c (List.mem_of_mem_take hc)) (by simp)
  simpa [shardDir] using h

theorem parsePath_chunkFile (s : FileChunkStore) (name : List Byte)
    (h : s.dir_depth_.toNat < (EncodeToHex name).length) :
    (parsePath (chunkFile s name)).comps =
      (parsePath (shardDir s name)).comps ++ [(EncodeToHex name).drop s.dir_depth_.toNat] ∧
    (parsePath (chunkFile s name)).slash = false := by
  have hne : (EncodeToHex name).drop s.dir_depth_.toNat ≠ [] := by
    intro hc
    have := congrArg List.length hc
    simp at this
    omega
  have hdrop : ∀ c ∈ (EncodeToHex name).drop s.dir_depth_.toNat, c ≠ '/' :=
    fun c hc => EncodeToHex_no_slash name c (List.mem_of_mem_drop hc)
  have h1 := parsePath_chunk_comps s.storage_location_
    ((EncodeToHex name).take s.dir_depth_.toNat) _
    (fun c hc => EncodeToHex_no_slash name c (List.mem_of_mem_take hc)) hdrop
  have h2 := parsePath_chunk_slash s.storage_location_
    ((EncodeToHex name).take s.dir_depth_.toNat) _ hdrop
  constructor
  · rw [parsePath_shardDir]
    simp only [chunkFile]
    rw [h1]
    simp [hne]
  · simp only [chunkFile]
    rw [h2]
    simp [hne]

/-- Creating the shard directory of a chunk does not change what the chunk
path names. -/
theorem fs.status_create_directories_chunkFile (s : FileChunkStore) (disk : Node)
    (name : List Byte) (h : s.dir_depth_.toNat < (EncodeToHex name).length) :
    fs.status (fs.create_directories disk (shardDir s name)) (chunkFile s name) =
      fs.status disk (chunkFile s name) := by
  obtain ⟨hc, _⟩ := parsePath_chunkFile s name h
  simp only [fs.status, chunkFile_ne_nil, fs.create_directories, shardDir_ne_nil, hc]
  simp only [Bool.false_eq_true, if_false]
  rw [Node.lookup_mkdirs_below]

/-- Creating directories keeps every regular file readable at its path. -/
theorem fs.status_create_directories_file (disk : Node) (p q : List Char) (c : List Byte)
    (h : fs.status disk q = some (.file c)) :
    fs.status (fs.create_directories disk p) q = some (.file c) := by
  unfold fs.create_directories
  split
  · exact h
  · unfold fs.status at h ⊢
    split at h
    · simp at h
    · rename_i hq
      simp only [hq]
      cases hl : disk.lookup (parsePath q).comps with
      | none => simp [hl] at h
      | some n =>
        cases n with
        | dir es => simp [hl] at h
        | other =>
          simp only [hl] at h
          split at h <;> simp at h
        | file c2 =>
          simp only [hl] at h
          rw [Node.lookup_mkdirs_file _ _ _ _ hl]
          exact h

/-! ## Claims -/

namespace FileChunkStore

/-- C1 (as stated, refuted): the store `storeAB` already holds the byte 1
under `ab` (it is what `Store` produced on the fresh store).  The store is
initialised, name and content are non-empty, capacity is sufficient and
writing `[2]` to the chunk path succeeds, yet `Store(ab, [2])` returns true
without writing and `Get(ab)` afterwards returns `[1]`, not `[2]`. -/
theorem C1_round_trip_counterexample :
    Store exampleStore exampleDisk nameAB [1] = some (true, storeAB, diskAB) ∧
    storeAB.initialised_ = true ∧ nameAB ≠ [] ∧ ([2] : List Byte) ≠ [] ∧
    Vacant storeAB ([2] : List Byte).length = true ∧
    ChunkNameToFilePath storeAB diskAB nameAB true =
      some (['/', 'r', '/', '6', '/', '1', '/', '6', '2'], diskAB) ∧
    (WriteFile diskAB ['/', 'r', '/', '6', '/', '1', '/', '6', '2'] [2]).isSome = true ∧
    Store storeAB diskAB nameAB [2] = some (true, storeAB, diskAB) ∧
    Get storeAB diskAB nameAB = some [1] ∧
    Get storeAB diskAB nameAB ≠ some [2] := by
  decide

/-- C1 (amended): on an initialised store, for a non-empty name that is not
yet present and a non-empty content with `Vacant(content.size())`, when the
file write succeeds `Store(name, content)` returns true and `Get(name)`
afterwards returns exactly `content`. -/
theorem C1_round_trip (s : FileChunkStore) (disk disk1 disk2 : Node)
    (name content : List Byte) (chunk_file : List Char)
    (hinit : s.initialised_ = true) (hname : name ≠ []) (hcontent : content ≠ [])
    (habsent : Has s disk name = some false)
    (hvacant : Vacant s content.length = true)
    (hpath : ChunkNameToFilePath s disk name true = some (chunk_file, disk1))
    (hwrite : WriteFile disk1 chunk_file content = some disk2) :
    Store s disk name content = some (true, ChunkAdded s content.length, disk2) ∧
    Get (ChunkAdded s content.length) disk2 name = some content := by
  have hn : name.isEmpty = false := by cases name <;> simp_all
  have hc : content.isEmpty = false := by cases content <;> simp_all
  constructor
  · simp [Store, IsChunkStoreInitialised, hinit, hn, habsent, hpath, hc, hvacant, hwrite]
  · have hp := ChunkNameToFilePath_false s (ChunkAdded s content.length) disk disk1 disk2 name
      true chunk_file rfl rfl hpath
    have hr := fs.status_write_file _ _ _ _ hwrite
    have hi : (ChunkAdded s content.length).initialised_ = true := hinit
    simp [Get, IsChunkStoreInitialised, hi, hp, ReadFile, hr]

/-- Witness of C1 (amended): the fresh store on the empty root `/r` with
depth 2, the name `ab` and the content `[1]`. -/
theorem C1_round_trip_witness :
    Store exampleStore exampleDisk nameAB [1] =
      some (true, ChunkAdded exampleStore ([1] : List Byte).length, diskAB) ∧
    Get (ChunkAdded exampleStore ([1] : List Byte).length) diskAB nameAB = some [1] :=
  C1_round_trip exampleStore exampleDisk
    (.dir (.cons ['r'] (.dir (.cons ['6'] (.dir (.cons ['1'] (.dir .nil) .nil)) .nil)) .nil))
    diskAB nameAB [1] ['/', 'r', '/', '6', '/', '1', '/', '6', '2']
    (by decide) (by decide) (by decide) (by decide) (by decide) (by decide) (by decide)

/-- C2: when `Has(name)` is already true, `Store(name, content2)` with any
content returns true and is a no-op: the store object (count, total size)
and the filesystem (the stored bytes included) are returned unchanged. -/
theorem C2_store_idempotent (s : FileChunkStore) (disk : Node) (name content2 : List Byte)
    (hpresent : Has s disk name = some true) :
    Store s disk name content2 = some (true, s, disk) := by
  have hi : s.initialised_ = true := by
    by_contra hc
    simp [Has, IsChunkStoreInitialised, hc] at hpresent
  have hn : name.isEmpty = false := by
    by_contra hc
    simp [Has, IsChunkStoreInitialised, hi, hc] at hpresent
  simp [Store, IsChunkStoreInitialised, hi, hn, hpresent]

/-- Witness of C2: storing other bytes under `ab` in `storeAB`. -/
theorem C2_store_idempotent_witness :
    Has storeAB diskAB nameAB = some true ∧
    Store storeAB diskAB nameAB [7, 7] = some (true, storeAB, diskAB) :=
  ⟨by decide, C2_store_idempotent storeAB diskAB nameAB [7, 7] (by decide)⟩

theorem Has_eq (s : FileChunkStore) (disk : Node) (name : List Byte)
    (hinit : s.initialised_ = true) (hname : name ≠ []) (h0 : 0 ≤ s.dir_depth_)
    (h1 : s.dir_depth_.toNat ≤ (EncodeToHex name).length) :
    Has s disk name = some (fs.path_exists disk (chunkFile s name)) := by
  have hn : name.isEmpty = false := by cases name <;> simp_all
  simp [Has, IsChunkStoreInitialised, hinit, hn, ChunkNameToFilePath_eq s disk name false h0 h1]

theorem Vacant_false (s : FileChunkStore) (n : Nat) (hcap : 0 < s.capacity_)
    (hfull : s.capacity_ < s.size_ + n) : Vacant s n = false := by
  simp only [Vacant, Bool.or_eq_false_iff, beq_eq_false_iff_ne, decide_eq_false_iff_not]
  omega

/-- C3 (as stated, refuted): the store `storeCap` has capacity 5 and depth 2,
the one byte name `a` (hex `61`, as long as the depth) is not present and the
source file `/src` has 6 bytes, so `total_size + 6 > 5`; yet the file
overload of `Store` returns true, because the shard directory `/r/6/1/` it
has just created is what the chunk path names. -/
theorem C3_capacity_counterexample :
    storeCap.initialised_ = true ∧ 0 < storeCap.capacity_ ∧
    Has storeCap diskSrc [0x61] = some false ∧
    fs.file_size diskSrc ['/', 's', 'r', 'c'] = some 6 ∧
    storeCap.capacity_ < storeCap.size_ + 6 ∧
    ChunkNameToFilePath storeCap diskSrc [0x61] false =
      some (['/', 'r', '/', '6', '/', '1', '/'], diskSrc) ∧
    (StoreFromFile storeCap diskSrc [0x61] ['/', 's', 'r', 'c'] false).map (fun r => r.1) =
      some true := by
  decide

/-- C3 (amended): on an initialised store with capacity `C > 0` and a shard
depth `0 <= d` smaller than the hex length of the name, for a name not yet
present and `total_size + n > C`, both `Store(name, content)` with a content
of `n` bytes and `Store(name, source, delete)` with a source file of `n`
bytes return false, leave the store object (count, total size) unchanged and
leave `Has(name)` false. -/
theorem C3_capacity_enforcement (s : FileChunkStore) (disk : Node) (name : List Byte) (n : Nat)
    (hinit : s.initialised_ = true) (hname : name ≠ [])
    (hdepth0 : 0 ≤ s.dir_depth_) (hdepth : s.dir_depth_.toNat < (EncodeToHex name).length)
    (hcap : 0 < s.capacity_) (habsent : Has s disk name = some false)
    (hfull : s.capacity_ < s.size_ + n) :
    (∀ content : List Byte, content.length = n →
      ∃ disk1, Store s disk name content = some (false, s, disk1) ∧
        Has s disk1 name = some false) ∧
    (∀ (source_file_name : List Char) (delete_source_file : Bool),
      fs.file_size disk source_file_name = some n →
      ∃ disk1, StoreFromFile s disk name source_file_name delete_source_file =
          some (false, s, disk1) ∧
        Has s disk1 name = some false) := by
  have hn : name.isEmpty = false := by cases name <;> simp_all
  have hle : s.dir_depth_.toNat ≤ (EncodeToHex name).length := by omega
  have hpath := ChunkNameToFilePath_eq s disk name true hdepth0 hle
  have hvac := Vacant_false s n hcap hfull
  have hex0 : fs.path_exists disk (chunkFile s name) = false := by
    rw [Has_eq s disk name hinit hname hdepth0 hle] at habsent
    simpa using habsent
  have hex1 : fs.path_exists (fs.create_directories disk (shardDir s name))
      (chunkFile s name) = false := by
    unfold fs.path_exists at hex0 ⊢
    rw [fs.status_create_directories_chunkFile s disk name hdepth]
    exact hex0
  have hHas1 : Has s (fs.create_directories disk (shardDir s name)) name = some false := by
    rw [Has_eq s _ name hinit hname hdepth0 hle, hex1]
  constructor
  · intro content hlen
    refine ⟨fs.create_directories disk (shardDir s name), ?_, hHas1⟩
    subst hlen
    simp only [Store, IsChunkStoreInitialised, hinit, hn, habsent, hpath, hvac]
    cases content <;> simp
  · intro src del hsize
    refine ⟨fs.create_directories disk (shardDir s name), ?_, hHas1⟩
    have hsize1 : fs.file_size (fs.create_directories disk (shardDir s name)) src = some n := by
      unfold fs.file_size at hsize ⊢
      cases hst : fs.status disk src with
      | none => simp [hst] at hsize
      | some m =>
        cases m with
        | dir _ => simp [hst] at hsize
        | other => simp [hst] at hsize
        | file c =>
          rw [fs.status_create_directories_file disk _ src c hst]
          simpa [hst] using hsize
    by_cases h0 : n = 0 <;>
      simp [StoreFromFile, IsChunkStoreInitialised, hinit, hn, hpath, hex1, hsize1, hvac, h0]

/-- Witness of C3 (amended): capacity 5, the two byte name `ab` and six
bytes to store, from memory and from the file `/src`. -/
theorem C3_capacity_enforcement_witness :
    (∃ disk1, Store storeCap diskSrc nameAB [1, 2, 3, 4, 5, 6] = some (false, storeCap, disk1) ∧
        Has storeCap disk1 nameAB = some false) ∧
    (∃ disk1, StoreFromFile storeCap diskSrc nameAB ['/', 's', 'r', 'c'] true =
          some (false, storeCap, disk1) ∧
        Has storeCap disk1 nameAB = some false) :=
  ⟨(C3_capacity_enforcement storeCap diskSrc nameAB 6
      (by decide) (by decide) (by decide) (by decide) (by decide) (by decide) (by decide)).1
      [1, 2, 3, 4, 5, 6] rfl,
   (C3_capacity_enforcement storeCap diskSrc nameAB 6
      (by decide) (by decide) (by decide) (by decide) (by decide) (by decide) (by decide)).2
      ['/', 's', 'r', 'c'] true (by decide)⟩

end FileChunkStore

theorem splitPath_exists_nonempty : ∀ (p : List Char), p ≠ [] → p.getLast? ≠ some '/' →
    ∃ w ∈ splitPath p, w ≠ [] := by
  intro p
  induction p with
  | nil => intro h; exact absurd rfl h
  | cons c cs ih =>
    intro _ hlast
    cases cs with
    | nil =>
      have hc : c ≠ '/' := by simpa using hlast
      exact ⟨[c], by simp [splitPath, hc], by simp⟩
    | cons c2 cs2 =>
      have hlast2 : (c2 :: cs2).getLast? ≠ some '/' := by
        simpa [List.getLast?_cons_cons] using hlast
      obtain ⟨w, hw, hne⟩ := ih (by simp) hlast2
      by_cases hc : c = '/'
      · exact ⟨w, by simp [splitPath, hc] at hw ⊢; exact Or.inr hw, hne⟩
      · cases hs : splitPath (c2 :: cs2) with
        | nil => exact absurd hs (splitPath_ne_nil _)
        | cons w0 ws =>
          refine ⟨c :: w0, ?_, by simp⟩
          have : splitPath (c :: c2 :: cs2) = (c :: w0) :: ws := by
            rw [splitPath]; simp [hc, hs]
          rw [this]; simp

/-- A non-empty path string without a trailing `/` has a component. -/
theorem parsePath_comps_ne_nil (p : List Char) (h : p.isEmpty = false)
    (hs : (parsePath p).slash = false) : (parsePath p).comps ≠ [] := by
  have hp : p ≠ [] := by cases p <;> simp_all
  have hl : p.getLast? ≠ some '/' := by
    simpa [parsePath] using hs
  obtain ⟨w, hw, hne⟩ := splitPath_exists_nonempty p hp hl
  intro hc
  have hmem : w ∈ (parsePath p).comps := by
    simp only [parsePath, List.mem_filter]
    exact ⟨hw, by cases w <;> simp_all⟩
  rw [hc] at hmem
  simp at hmem

/-- What `fs.status` says about a path that names a regular file. -/
theorem fs.status_file_iff (disk : Node) (p : List Char) (c : List Byte) :
    fs.status disk p = some (.file c) ↔
      p.isEmpty = false ∧ (parsePath p).slash = false ∧
        disk.lookup (parsePath p).comps = some (.file c) := by
  unfold fs.status
  cases hp : p.isEmpty with
  | true => simp
  | false =>
    simp only [Bool.false_eq_true, if_false, true_and]
    cases hl : disk.lookup (parsePath p).comps with
    | none => simp
    | some n =>
      cases n with
      | dir es => simp
      | other => cases hs : (parsePath p).slash <;> simp
      | file c2 => cases hs : (parsePath p).slash <;> simp

/-- Removing a regular file succeeds and leaves nothing at its path. -/
theorem fs.remove_file (disk : Node) (p : List Char) (c : List Byte)
    (h : fs.status disk p = some (.file c)) :
    ∃ disk1, fs.remove disk p = some disk1 ∧ fs.status disk1 p = none := by
  obtain ⟨hp, hs, hl⟩ := (fs.status_file_iff disk p c).mp h
  have hne := parsePath_comps_ne_nil p hp hs
  obtain ⟨disk1, hr⟩ := Node.removeAt_file _ disk c hne hl
  refine ⟨disk1, by simp [fs.remove, h, hr], ?_⟩
  simp [fs.status, hp, Node.lookup_removeAt _ _ _ hr]

/-- After any successful removal nothing is left at the path. -/
theorem fs.status_remove (disk disk1 : Node) (p : List Char)
    (h : fs.remove disk p = some disk1) : fs.status disk1 p = none := by
  unfold fs.remove at h
  cases hst : fs.status disk p with
  | none => simp [hst] at h; subst h; exact hst
  | some n =>
    simp only [hst] at h
    unfold fs.status
    split
    · rfl
    · simp [Node.lookup_removeAt _ _ _ h]

namespace FileChunkStore

theorem ChunkRemoved_fields (s : FileChunkStore) (delta : Nat) :
    (ChunkRemoved s delta).initialised_ = s.initialised_ ∧
    (ChunkRemoved s delta).storage_location_ = s.storage_location_ ∧
    (ChunkRemoved s delta).dir_depth_ = s.dir_depth_ ∧
    (ChunkRemoved s delta).capacity_ = s.capacity_ := by
  cases s
  exact ⟨rfl, rfl, rfl, rfl⟩

theorem ChunkAdded_fields (s : FileChunkStore) (delta : Nat) :
    (ChunkAdded s delta).initialised_ = s.initialised_ ∧
    (ChunkAdded s delta).storage_location_ = s.storage_location_ ∧
    (ChunkAdded s delta).dir_depth_ = s.dir_depth_ ∧
    (ChunkAdded s delta).capacity_ = s.capacity_ := by
  cases s
  exact ⟨rfl, rfl, rfl, rfl⟩

/-- What `Delete` does to a chunk that is a regular file. -/
theorem Delete_file (s : FileChunkStore) (disk : Node) (name : List Byte) (p : List Char)
    (c : List Byte) (hinit : s.initialised_ = true) (hname : name ≠ [])
    (hpath : ChunkNameToFilePath s disk name false = some (p, disk))
    (hfile : fs.status disk p = some (.file c)) :
    ∃ disk1, fs.remove disk p = some disk1 ∧ fs.status disk1 p = none ∧
      Delete s disk name = some (true, ChunkRemoved s c.length, disk1) := by
  have hn : name.isEmpty = false := by cases name <;> simp_all
  obtain ⟨disk1, hr, hst⟩ := fs.remove_file disk p c hfile
  refine ⟨disk1, hr, hst, ?_⟩
  simp [Delete, Has, IsChunkStoreInitialised, hinit, hn, hpath, fs.path_exists, hfile,
    fs.file_size, hr]

/-- What `Validate` does to a chunk file whose content does not hash to its
name: the ledger is decremented by `Validate` and again by `Delete`. -/
theorem Validate_mismatch (Hash : List Byte → List Byte) (s : FileChunkStore) (disk : Node)
    (name : List Byte) (p : List Char) (c : List Byte)
    (hinit : s.initialised_ = true) (hname : name ≠ [])
    (hpath : ChunkNameToFilePath s disk name false = some (p, disk))
    (hfile : fs.status disk p = some (.file c)) (hbad : name ≠ Hash c) :
    ∃ disk1, fs.remove disk p = some disk1 ∧ fs.status disk1 p = none ∧
      Validate Hash s disk name =
        some (false, ChunkRemoved (ChunkRemoved s c.length) c.length, disk1) := by
  have hn : name.isEmpty = false := by cases name <;> simp_all
  obtain ⟨hf1, hf2, hf3, _⟩ := ChunkRemoved_fields s c.length
  have hpath2 := ChunkNameToFilePath_false s (ChunkRemoved s c.length) disk disk disk name
    false p hf2 hf3 hpath
  obtain ⟨disk1, hr, hst, hd⟩ := Delete_file (ChunkRemoved s c.length) disk name p c
    (hf1.trans hinit) hname hpath2 hfile
  refine ⟨disk1, hr, hst, ?_⟩
  simp [Validate, Get, Size, IsChunkStoreInitialised, hinit, hn, hpath, ReadFile, hfile,
    fs.file_size, hbad, hd]

/-- C4 (the defect, evaluated): the ledger invariant holds after `Init` and
after two `Store` calls, and `Validate` on the chunk `ab`, whose content does
not hash to its name, breaks it: `chunk_count` drops from 2 to 0 and
`total_size` from 4 to 2, while one file of 3 bytes is left under the root. -/
theorem C4_validate_breaks_ledger (Hash : List Byte → List Byte) (hbad : nameAB ≠ Hash [1]) :
    Init ctor exampleDisk ['/', 'r'] 2 = (true, exampleStore, exampleDisk) ∧
    LedgerInvariant exampleStore exampleDisk = true ∧
    Store exampleStore exampleDisk nameAB [1] = some (true, storeAB, diskAB) ∧
    LedgerInvariant storeAB diskAB = true ∧
    Store storeAB diskAB nameCD [4, 5, 6] = some (true, storeABCD, diskABCD) ∧
    LedgerInvariant storeABCD diskABCD = true ∧
    Validate Hash storeABCD diskABCD nameAB = some (false, storeAfterValidate, diskCD) ∧
    storeAfterValidate.chunk_count_ = 0 ∧ storeAfterValidate.size_ = 2 ∧
    chunksOnDisk storeAfterValidate diskCD = (1, 3) ∧
    LedgerInvariant storeAfterValidate diskCD = false := by
  refine ⟨by decide, by decide, by decide, by decide, by decide, by decide, ?_,
    by decide, by decide, by decide, by decide⟩
  have hg : Get storeABCD diskABCD nameAB = some [1] := by decide
  have hs : Size storeABCD diskABCD nameAB = some 1 := by decide
  have hd : Delete (ChunkRemoved storeABCD 1) diskABCD nameAB =
      some (true, storeAfterValidate, diskCD) := by
    decide
  have hi : storeABCD.initialised_ = true := by decide
  have hn : nameAB.isEmpty = false := by decide
  simp only [Validate, IsChunkStoreInitialised, hi, hn, hg, hs, hd, hbad]
  simp

/-- Witness of C4: the stand-in digest does not map the stored byte to `ab`. -/
theorem C4_validate_breaks_ledger_witness :
    LedgerInvariant storeABCD diskABCD = true ∧
    Validate toyHash storeABCD diskABCD nameAB = some (false, storeAfterValidate, diskCD) ∧
    LedgerInvariant storeAfterValidate diskCD = false :=
  ⟨(C4_validate_breaks_ledger toyHash (by decide)).2.2.2.2.2.1,
   (C4_validate_breaks_ledger toyHash (by decide)).2.2.2.2.2.2.1,
   (C4_validate_breaks_ledger toyHash (by decide)).2.2.2.2.2.2.2.2.2.2⟩

/-- C5 (as stated, refuted): the store `storeValid` already holds under `ab`
a content that hashes to `ab`.  `Store(ab, [9])` with a content that does
not hash to `ab` succeeds as a no-op, and `Validate(ab)` then returns true
and the chunk stays. -/
theorem C5_validate_counterexample :
    storeValid.initialised_ = true ∧ nameAB ≠ [] ∧ ([9] : List Byte) ≠ [] ∧
    toyHash [9] ≠ nameAB ∧
    Store storeValid diskValid nameAB [9] = some (true, storeValid, diskValid) ∧
    Validate toyHash storeValid diskValid nameAB = some (true, storeValid, diskValid) ∧
    Has storeValid diskValid nameAB = some true := by
  decide

/-- C5 (amended): on an initialised store, for a non-empty name that is not
present before the call and a non-empty content that does not hash to the
name, after a successful `Store(name, content)` the call `Validate(name)`
returns false and afterwards `Has(name)` is false. -/
theorem C5_validate_destroys (Hash : List Byte → List Byte) (s s1 : FileChunkStore)
    (disk disk1 : Node) (name content : List Byte)
    (hinit : s.initialised_ = true) (hname : name ≠ []) (hcontent : content ≠ [])
    (habsent : Has s disk name = some false) (hbad : Hash content ≠ name)
    (hstore : Store s disk name content = some (true, s1, disk1)) :
    ∃ s2 disk2, Validate Hash s1 disk1 name = some (false, s2, disk2) ∧
      Has s2 disk2 name = some false := by
  have hn : name.isEmpty = false := by cases name <;> simp_all
  have hc : content.isEmpty = false := by cases content <;> simp_all
  simp only [Store, IsChunkStoreInitialised, hinit, hn, habsent] at hstore
  cases hp : ChunkNameToFilePath s disk name true with
  | none => simp [hp] at hstore
  | some q =>
    obtain ⟨p, d1⟩ := q
    simp only [hp, hc] at hstore
    cases hv : Vacant s content.length with
    | false => simp [hv] at hstore
    | true =>
      cases hw : WriteFile d1 p content with
      | none => simp [hv, hw] at hstore
      | some d2 =>
        simp only [hv, hw] at hstore
        simp only [Bool.not_true, Bool.false_eq_true, if_false, Option.some.injEq,
          Prod.mk.injEq, true_and] at hstore
        obtain ⟨hs1, hd2⟩ := hstore
        subst hs1 hd2
        obtain ⟨ha1, ha2, ha3, _⟩ := ChunkAdded_fields s content.length
        have hp1 := ChunkNameToFilePath_false s (ChunkAdded s content.length) disk d1 d2 name
          true p ha2 ha3 hp
        have hfile := fs.status_write_file _ _ _ _ hw
        obtain ⟨d3, _, hst, hval⟩ := Validate_mismatch Hash (ChunkAdded s content.length) d2
          name p content (ha1.trans hinit) hname hp1 hfile (fun e => hbad e.symm)
        refine ⟨_, d3, hval, ?_⟩
        obtain ⟨hb1, hb2, hb3, _⟩ := ChunkRemoved_fields (ChunkAdded s content.length)
          content.length
        obtain ⟨hc1, hc2, hc3, _⟩ := ChunkRemoved_fields
          (ChunkRemoved (ChunkAdded s content.length) content.length) content.length
        have hp3 := ChunkNameToFilePath_false s
          (ChunkRemoved (ChunkRemoved (ChunkAdded s content.length) content.length)
            content.length) disk d1 d3 name true p
          (hc2.trans (hb2.trans ha2)) (hc3.trans (hb3.trans ha3)) hp
        have hi3 := hc1.trans (hb1.trans (ha1.trans hinit))
        simp [Has, IsChunkStoreInitialised, hi3, hn, hp3, fs.path_exists, hst]

/-- Witness of C5 (amended): the byte 1 stored under `ab` in the fresh store,
with the stand-in digest. -/
theorem C5_validate_destroys_witness :
    ∃ s2 disk2, Validate toyHash storeAB diskAB nameAB = some (false, s2, disk2) ∧
      Has s2 disk2 nameAB = some false :=
  C5_validate_destroys toyHash exampleStore storeAB exampleDisk diskAB nameAB [1]
    (by decide) (by decide) (by decide) (by decide) (by decide) (by decide)

/-- The ledger after `ChunkRemoved`, in unsigned arithmetic and, when nothing
underflows, exactly. -/
theorem ChunkRemoved_ledger (s : FileChunkStore) (delta : Nat) :
    ((ChunkRemoved s delta).chunk_count_ + 1) % UINTMAX_MOD = s.chunk_count_ % UINTMAX_MOD ∧
    ((ChunkRemoved s delta).size_ + delta) % UINTMAX_MOD = s.size_ % UINTMAX_MOD ∧
    (1 ≤ s.chunk_count_ → s.chunk_count_ < UINTMAX_MOD →
      (ChunkRemoved s delta).chunk_count_ = s.chunk_count_ - 1) ∧
    (delta ≤ s.size_ → s.size_ < UINTMAX_MOD →
      (ChunkRemoved s delta).size_ = s.size_ - delta) := by
  cases s with
  | mk i l d cnt sz cap =>
    show ((cnt + (UINTMAX_MOD - 1)) % UINTMAX_MOD + 1) % UINTMAX_MOD = cnt % UINTMAX_MOD ∧
      ((sz + (UINTMAX_MOD - delta % UINTMAX_MOD)) % UINTMAX_MOD + delta) % UINTMAX_MOD =
        sz % UINTMAX_MOD ∧
      (1 ≤ cnt → cnt < UINTMAX_MOD → (cnt + (UINTMAX_MOD - 1)) % UINTMAX_MOD = cnt - 1) ∧
      (delta ≤ sz → sz < UINTMAX_MOD →
        (sz + (UINTMAX_MOD - delta % UINTMAX_MOD)) % UINTMAX_MOD = sz - delta)
    unfold UINTMAX_MOD
    refine ⟨by omega, by omega, by omega, by omega⟩

/-- C6 (the defect, in general): for a chunk file whose content hashes to the
name `Validate` returns true and changes nothing; for one whose content does
not, `Validate` returns false, removes the file and applies `ChunkRemoved`
twice with the size of the chunk: once itself and once inside `Delete`. -/
theorem C6_validate_ledger (Hash : List Byte → List Byte) (s : FileChunkStore) (disk : Node)
    (name : List Byte) (p : List Char) (c : List Byte)
    (hinit : s.initialised_ = true) (hname : name ≠ [])
    (hpath : ChunkNameToFilePath s disk name false = some (p, disk))
    (hfile : fs.status disk p = some (.file c)) :
    (name = Hash c → Validate Hash s disk name = some (true, s, disk)) ∧
    (name ≠ Hash c → ∃ disk1,
      Validate Hash s disk name =
        some (false, ChunkRemoved (ChunkRemoved s c.length) c.length, disk1) ∧
      fs.status disk1 p = none) := by
  have hn : name.isEmpty = false := by cases name <;> simp_all
  constructor
  · intro hgood
    simp [Validate, Get, IsChunkStoreInitialised, hinit, hn, hpath, ReadFile, hfile, ← hgood]
  · intro hbad
    obtain ⟨disk1, _, hst, hval⟩ := Validate_mismatch Hash s disk name p c hinit hname hpath
      hfile hbad
    exact ⟨disk1, hval, hst⟩

/-- Witness of C6: `Validate(ab)` on the store with two chunks (count 2,
total size 4) removes the one byte chunk `ab` and leaves count 0 and total
size 2, where one decrement would leave count 1 and total size 3. -/
theorem C6_validate_ledger_witness :
    (∃ disk1, Validate toyHash storeABCD diskABCD nameAB =
        some (false, ChunkRemoved (ChunkRemoved storeABCD ([1] : List Byte).length)
          ([1] : List Byte).length, disk1) ∧
      fs.status disk1 ['/', 'r', '/', '6', '/', '1', '/', '6', '2'] = none) ∧
    storeABCD.chunk_count_ = 2 ∧ storeABCD.size_ = 4 ∧
    (ChunkRemoved (ChunkRemoved storeABCD 1) 1).chunk_count_ = 0 ∧
    (ChunkRemoved (ChunkRemoved storeABCD 1) 1).size_ = 2 :=
  ⟨(C6_validate_ledger toyHash storeABCD diskABCD nameAB
      ['/', 'r', '/', '6', '/', '1', '/', '6', '2'] [1]
      (by decide) (by decide) (by decide) (by decide)).2 (by decide),
   by decide, by decide, by decide, by decide⟩

/-- C8 (the defect, evaluated): `Init` on the root `/r`, which holds one file
of one byte, gives count 1 and total size 1 on a new store object; a second
`Init` of that object on the same root keeps count 1 but leaves total size
2, because the scanned size is added to the running total; a capacity set
in between is reset to 0. -/
theorem C8_reinit_adds_to_total :
    Init ctor diskAB ['/', 'r'] 2 = (true, storeAB, diskAB) ∧
    chunksOnDisk storeAB diskAB = (1, 1) ∧
    RetrieveChunkInfo diskAB ['/', 'r'] = (1, 1) ∧
    Init (SetCapacity storeAB 9) diskAB ['/', 'r'] 2 =
      (true, { storeAB with size_ := 2 }, diskAB) ∧
    Count { storeAB with size_ := 2 } = 1 ∧
    ({ storeAB with size_ := 2 } : FileChunkStore).capacity_ = 0 ∧
    ({ storeAB with size_ := 2 } : FileChunkStore).size_ = 2 := by
  decide

end FileChunkStore

theorem parsePath_slash_of_append_slash (xs : List Char) :
    (parsePath (xs ++ ['/'])).slash = true := by
  simp [parsePath]

theorem fs.write_file_no_slash (disk disk2 : Node) (xs : List Char) (c : List Byte) :
    fs.write_file disk (xs ++ ['/']) c ≠ some disk2 := by
  simp [fs.write_file, parsePath_slash_of_append_slash]

/-- What `fs.status` says about a path that names nothing. -/
theorem fs.status_none_lookup (disk : Node) (p : List Char) (hp : p.isEmpty = false)
    (hs : (parsePath p).slash = false) (h : fs.status disk p = none) :
    disk.lookup (parsePath p).comps = none := by
  unfold fs.status at h
  simp only [hp, Bool.false_eq_true, if_false, hs] at h
  cases hl : disk.lookup (parsePath p).comps with
  | none => rfl
  | some n => cases n <;> simp [hl] at h

namespace FileChunkStore

/-- When the chunk path accepts a file write, the shard depth is at least 0
and smaller than the hex length of the name, and the path is `chunkFile`. -/
theorem depth_of_write (s : FileChunkStore) (disk disk1 d d2 : Node) (name : List Byte)
    (p : List Char) (c : List Byte)
    (hpath : ChunkNameToFilePath s disk name true = some (p, disk1))
    (hwrite : fs.write_file d p c = some d2) :
    0 ≤ s.dir_depth_ ∧ s.dir_depth_.toNat < (EncodeToHex name).length := by
  simp only [ChunkNameToFilePath] at hpath
  cases hk : dirNamesLoop (EncodeToHex name) s.dir_depth_.toNat with
  | none => simp [hk] at hpath
  | some x =>
    have hle := dirNamesLoop_some_le _ _ _ hk
    simp only [hk, Option.some.injEq, Prod.mk.injEq] at hpath
    obtain ⟨hp, _⟩ := hpath
    by_cases hneg : s.dir_depth_ < 0
    · exfalso
      have : p = (s.storage_location_ ++ x) ++ ['/'] := by
        rw [← hp]; simp [eraseFront, hneg]
      rw [this] at hwrite
      exact fs.write_file_no_slash _ _ _ _ hwrite
    · refine ⟨by omega, ?_⟩
      by_contra hge
      have hdrop : (EncodeToHex name).drop s.dir_depth_.toNat = [] := by
        apply List.drop_eq_nil_of_le; omega
      have : p = (s.storage_location_ ++ x) ++ ['/'] := by
        rw [← hp]; simp [eraseFront, hneg, hdrop]
      rw [this] at hwrite
      exact fs.write_file_no_slash _ _ _ _ hwrite

theorem ChunkAdded_ledger (s : FileChunkStore) (delta : Nat) :
    (ChunkAdded s delta).chunk_count_ = (s.chunk_count_ + 1) % UINTMAX_MOD ∧
    (ChunkAdded s delta).size_ = (s.size_ + delta) % UINTMAX_MOD := by
  cases s
  exact ⟨rfl, rfl⟩

/-- With `generate_dirs` true the filesystem returned is the given one after
a `create_directories` call. -/
theorem ChunkNameToFilePath_true_disk (s : FileChunkStore) (disk disk1 : Node)
    (name : List Byte) (p : List Char)
    (h : ChunkNameToFilePath s disk name true = some (p, disk1)) :
    ∃ q, disk1 = fs.create_directories disk q := by
  simp only [ChunkNameToFilePath] at h
  cases hk : dirNamesLoop (EncodeToHex name) s.dir_depth_.toNat with
  | none => simp [hk] at h
  | some x =>
    simp only [hk, Option.some.injEq, Prod.mk.injEq, if_true] at h
    exact ⟨_, h.2.symm⟩

/-- C9 (as stated, refuted).  First input: the root `/a` holds the chunk `ab`
as an empty file, which `Init` counts; the store on `/b` does not hold it and
has vacancy for 0 bytes, yet `MoveTo` returns false: the sink rejects a source
of size 0.  Second input: the chunk has one byte, but the root `/b` holds a
regular file where the shard directory is needed, so the rename fails and
`MoveTo` returns false, leaving both store objects as they were. -/
theorem C9_move_counterexample :
    Init ctor diskMoveEmpty ['/', 'a'] 2 = (true, storeAEmpty, diskMoveEmpty) ∧
    Init ctor diskMoveEmpty ['/', 'b'] 2 = (true, storeB, diskMoveEmpty) ∧
    storeAEmpty.storage_location_ ≠ storeB.storage_location_ ∧
    Has storeAEmpty diskMoveEmpty nameAB = some true ∧
    Size storeAEmpty diskMoveEmpty nameAB = some 0 ∧
    Has storeB diskMoveEmpty nameAB = some false ∧
    Vacant storeB 0 = true ∧
    (MoveTo storeAEmpty diskMoveEmpty nameAB (some storeB)).map (fun r => r.1) = some false ∧
    Init ctor diskMoveBlocked ['/', 'a'] 2 = (true, storeA, diskMoveBlocked) ∧
    Init ctor diskMoveBlocked ['/', 'b'] 2 = (true, storeBBlocked, diskMoveBlocked) ∧
    storeA.storage_location_ ≠ storeBBlocked.storage_location_ ∧
    Has storeA diskMoveBlocked nameAB = some true ∧
    Size storeA diskMoveBlocked nameAB = some 1 ∧
    Has storeBBlocked diskMoveBlocked nameAB = some false ∧
    Vacant storeBBlocked 1 = true ∧
    MoveTo storeA diskMoveBlocked nameAB (some storeBBlocked) =
      some (false, storeA, some storeBBlocked, diskMoveBlocked) := by
  decide

/-- C9 (amended): for two initialised stores `a` and `b` on one filesystem,
where `a` holds the chunk as a file with non-empty content `c`, `b` does not
hold it, `b` has vacancy for its size and the rename into the tree of `b`
succeeds, `a.MoveTo(name, b)` returns true; afterwards `a.Has(name)` is
false, `b.Has(name)` is true, `b.Get(name)` is `c`, the total size of `a`
has decreased and that of `b` has increased by the size of `c` (unsigned
arithmetic; the decrease is exact when it does not underflow). -/
theorem C9_move_semantics (a b : FileChunkStore) (disk disk1 disk2 : Node) (name : List Byte)
    (pa pb : List Char) (c : List Byte)
    (hinitA : a.initialised_ = true) (hinitB : b.initialised_ = true) (hname : name ≠ [])
    (hpathA : ChunkNameToFilePath a disk name false = some (pa, disk))
    (hfileA : fs.status disk pa = some (.file c)) (hsize : c ≠ [])
    (habsentB : Has b disk name = some false)
    (hvacant : Vacant b c.length = true)
    (hpathB : ChunkNameToFilePath b disk name true = some (pb, disk1))
    (hrename : fs.rename disk1 pa pb = some disk2) :
    MoveTo a disk name (some b) =
      some (true, ChunkRemoved a c.length, some (ChunkAdded b c.length), disk2) ∧
    Has (ChunkRemoved a c.length) disk2 name = some false ∧
    Has (ChunkAdded b c.length) disk2 name = some true ∧
    Get (ChunkAdded b c.length) disk2 name = some c ∧
    ((ChunkRemoved a c.length).size_ + c.length) % UINTMAX_MOD = a.size_ % UINTMAX_MOD ∧
    (c.length ≤ a.size_ → a.size_ < UINTMAX_MOD →
      (ChunkRemoved a c.length).size_ = a.size_ - c.length) ∧
    (ChunkAdded b c.length).size_ = (b.size_ + c.length) % UINTMAX_MOD := by
  have hn : name.isEmpty = false := by cases name <;> simp_all
  have hlen : c.length ≠ 0 := by cases c <;> simp_all
  -- the chunk of `a` is still a file after the shard directories of `b` exist
  obtain ⟨q, hq⟩ := ChunkNameToFilePath_true_disk b disk disk1 name pb hpathB
  have hfile1 : fs.status disk1 pa = some (.file c) := by
    rw [hq]; exact fs.status_create_directories_file disk q pa c hfileA
  -- the two steps of the rename
  have hren := hrename
  simp only [fs.rename, hfile1] at hren
  cases hrm : disk1.removeAt (parsePath pa).comps with
  | none => simp [hrm] at hren
  | some d3 =>
    simp only [hrm] at hren
    obtain ⟨hd0, hd1⟩ := depth_of_write b disk disk1 d3 disk2 name pb c hpathB hren
    have hle : b.dir_depth_.toNat ≤ (EncodeToHex name).length := by omega
    have hpathB2 := ChunkNameToFilePath_eq b disk name true hd0 hle
    rw [hpathB] at hpathB2
    simp only [if_true, Option.some.injEq, Prod.mk.injEq] at hpathB2
    obtain ⟨hpb, hdisk1⟩ := hpathB2
    -- the chunk path of `b` names nothing before the move
    have hex0 : fs.path_exists disk pb = false := by
      rw [Has_eq b disk name hinitB hname hd0 hle] at habsentB
      rw [hpb]; simpa using habsentB
    have hex1 : fs.path_exists disk1 pb = false := by
      unfold fs.path_exists at hex0 ⊢
      rw [hpb, hdisk1, fs.status_create_directories_chunkFile b disk name hd1, ← hpb]
      exact hex0
    have hsz1 : fs.file_size disk1 pa = some c.length := by
      simp [fs.file_size, hfile1]
    have hstore : StoreFromFile b disk name pa true =
        some (true, ChunkAdded b c.length, disk2) := by
      simp [StoreFromFile, IsChunkStoreInitialised, hinitB, hn, hpathB, hex1, hsz1, hlen,
        hvacant, hrename]
    have hHasA : Has a disk name = some true := by
      simp [Has, IsChunkStoreInitialised, hinitA, hn, hpathA, fs.path_exists, hfileA]
    have hSizeA : Size a disk name = some c.length := by
      simp [Size, IsChunkStoreInitialised, hinitA, hn, hpathA, fs.file_size, hfileA]
    have hmove : MoveTo a disk name (some b) =
        some (true, ChunkRemoved a c.length, some (ChunkAdded b c.length), disk2) := by
      simp [MoveTo, IsChunkStoreInitialised, hinitA, hn, hHasA, hpathA, hSizeA, hstore]
    -- the filesystem afterwards
    have hfileB2 : fs.status disk2 pb = some (.file c) := fs.status_write_file _ _ _ _ hren
    obtain ⟨hpa0, hpas, hpal⟩ := (fs.status_file_iff disk pa c).mp hfileA
    obtain ⟨hpb0, hpbs, _⟩ := (fs.status_file_iff disk2 pb c).mp hfileB2
    have hst0 : fs.status disk pb = none := by
      unfold fs.path_exists at hex0
      cases h : fs.status disk pb with
      | none => rfl
      | some _ => simp [h] at hex0
    have hlb := fs.status_none_lookup disk pb hpb0 hpbs hst0
    have hcomps : (parsePath pa).comps ≠ (parsePath pb).comps := by
      intro e
      rw [e, hlb] at hpal
      simp at hpal
    have hwr : d3.writeAt (parsePath pb).comps c = some disk2 := by
      simpa [fs.write_file, hpb0, hpbs] using hren
    have hla2 : disk2.lookup (parsePath pa).comps = none :=
      Node.lookup_writeAt_other _ d3 disk2 c _ hwr hcomps (Node.lookup_removeAt _ _ _ hrm)
    have hstA2 : fs.status disk2 pa = none := by
      simp [fs.status, hla2]
    obtain ⟨hr1, hr2, hr3, _⟩ := ChunkRemoved_fields a c.length
    obtain ⟨ha1, ha2, ha3, _⟩ := ChunkAdded_fields b c.length
    have hpA2 := ChunkNameToFilePath_false a (ChunkRemoved a c.length) disk disk disk2 name
      false pa hr2 hr3 hpathA
    have hpB2 := ChunkNameToFilePath_false b (ChunkAdded b c.length) disk disk1 disk2 name
      true pb ha2 ha3 hpathB
    obtain ⟨_, l2, _, l4⟩ := ChunkRemoved_ledger a c.length
    refine ⟨hmove, ?_, ?_, ?_, l2, l4, (ChunkAdded_ledger b c.length).2⟩
    · simp [Has, IsChunkStoreInitialised, hr1.trans hinitA, hn, hpA2, fs.path_exists, hstA2]
    · simp [Has, IsChunkStoreInitialised, ha1.trans hinitB, hn, hpB2, fs.path_exists, hfileB2]
    · simp [Get, IsChunkStoreInitialised, ha1.trans hinitB, hpB2, ReadFile, hfileB2]

/-- Witness of C9 (amended): the one byte chunk `ab` moves from the store on
`/a` to the store on `/b`. -/
theorem C9_move_semantics_witness :
    MoveTo storeA diskMove nameAB (some storeB) =
      some (true, ChunkRemoved storeA ([1] : List Byte).length,
        some (ChunkAdded storeB ([1] : List Byte).length), diskMoved) ∧
    Has (ChunkRemoved storeA ([1] : List Byte).length) diskMoved nameAB = some false ∧
    Has (ChunkAdded storeB ([1] : List Byte).length) diskMoved nameAB = some true ∧
    Get (ChunkAdded storeB ([1] : List Byte).length) diskMoved nameAB = some [1] ∧
    ((ChunkRemoved storeA ([1] : List Byte).length).size_ + ([1] : List Byte).length)
      % UINTMAX_MOD = storeA.size_ % UINTMAX_MOD ∧
    (([1] : List Byte).length ≤ storeA.size_ → storeA.size_ < UINTMAX_MOD →
      (ChunkRemoved storeA ([1] : List Byte).length).size_ =
        storeA.size_ - ([1] : List Byte).length) ∧
    (ChunkAdded storeB ([1] : List Byte).length).size_ =
      (storeB.size_ + ([1] : List Byte).length) % UINTMAX_MOD :=
  C9_move_semantics storeA storeB diskMove
    (.dir (.cons ['a'] (.dir (.cons ['6'] (.dir (.cons ['1'] (.dir
        (.cons ['6', '2'] (.file [1]) .nil)) .nil)) .nil))
      (.cons ['b'] (.dir (.cons ['6'] (.dir (.cons ['1'] (.dir .nil) .nil)) .nil)) .nil)))
    diskMoved nameAB ['/', 'a', '/', '6', '/', '1', '/', '6', '2']
    ['/', 'b', '/', '6', '/', '1', '/', '6', '2'] [1]
    (by decide) (by decide) (by decide) (by decide) (by decide) (by decide) (by decide)
    (by decide) (by decide) (by decide)

end FileChunkStore

theorem slashed_inj : ∀ (a b : List Char), slashed a = slashed b → a = b := by
  intro a
  induction a with
  | nil =>
    intro b h
    cases b with
    | nil => rfl
    | cons _ _ => simp [slashed] at h
  | cons x xs ih =>
    intro b h
    cases b with
    | nil => simp [slashed] at h
    | cons y ys =>
      simp only [slashed, List.cons.injEq, true_and] at h
      rw [h.1, ih ys h.2]

/-- Two names of equal length with the same chunk path string are equal. -/
theorem chunkFile_inj (s : FileChunkStore) (n1 n2 : List Byte) (hlen : n1.length = n2.length)
    (h : chunkFile s n1 = chunkFile s n2) : n1 = n2 := by
  apply EncodeToHex_inj
  have hl : (EncodeToHex n1).length = (EncodeToHex n2).length := by
    rw [EncodeToHex_length, EncodeToHex_length, hlen]
  simp only [chunkFile] at h
  have h2 := List.append_cancel_left h
  have hlen2 : (slashed ((EncodeToHex n1).take s.dir_depth_.toNat)).length =
      (slashed ((EncodeToHex n2).take s.dir_depth_.toNat)).length := by
    simp [slashed_length, hl]
  obtain ⟨ht, hd⟩ := List.append_inj h2 hlen2
  have ht2 := slashed_inj _ _ ht
  have hd2 : (EncodeToHex n1).drop s.dir_depth_.toNat =
      (EncodeToHex n2).drop s.dir_depth_.toNat := by
    simpa using hd
  rw [← List.take_append_drop s.dir_depth_.toNat (EncodeToHex n1),
    ← List.take_append_drop s.dir_depth_.toNat (EncodeToHex n2), ht2, hd2]

/-- Two names of equal length whose chunk paths have the same components are
equal. -/
theorem chunkFile_comps_inj (s : FileChunkStore) (n1 n2 : List Byte)
    (hlen : n1.length = n2.length)
    (h : (parsePath (chunkFile s n1)).comps = (parsePath (chunkFile s n2)).comps) : n1 = n2 := by
  apply EncodeToHex_inj
  have hl : (EncodeToHex n1).length = (EncodeToHex n2).length := by
    rw [EncodeToHex_length, EncodeToHex_length, hlen]
  have c1 := parsePath_chunk_comps s.storage_location_
    ((EncodeToHex n1).take s.dir_depth_.toNat) ((EncodeToHex n1).drop s.dir_depth_.toNat)
    (fun c hc => EncodeToHex_no_slash n1 c (List.mem_of_mem_take hc))
    (fun c hc => EncodeToHex_no_slash n1 c (List.mem_of_mem_drop hc))
  have c2 := parsePath_chunk_comps s.storage_location_
    ((EncodeToHex n2).take s.dir_depth_.toNat) ((EncodeToHex n2).drop s.dir_depth_.toNat)
    (fun c hc => EncodeToHex_no_slash n2 c (List.mem_of_mem_take hc))
    (fun c hc => EncodeToHex_no_slash n2 c (List.mem_of_mem_drop hc))
  simp only [chunkFile] at h
  rw [c1, c2] at h
  have h2 := List.append_cancel_left h
  have hlen2 : (((EncodeToHex n1).take s.dir_depth_.toNat).map (fun c => [c])).length =
      (((EncodeToHex n2).take s.dir_depth_.toNat).map (fun c => [c])).length := by
    simp [hl]
  obtain ⟨ht, hd⟩ := List.append_inj h2 hlen2
  have ht2 : (EncodeToHex n1).take s.dir_depth_.toNat =
      (EncodeToHex n2).take s.dir_depth_.toNat := by
    apply List.map_injective_iff.mpr _ ht
    intro a b hab
    simpa using hab
  have hdl : ((EncodeToHex n1).drop s.dir_depth_.toNat).length =
      ((EncodeToHex n2).drop s.dir_depth_.toNat).length := by
    simp [hl]
  have hd2 : (EncodeToHex n1).drop s.dir_depth_.toNat =
      (EncodeToHex n2).drop s.dir_depth_.toNat := by
    by_cases e1 : (EncodeToHex n1).drop s.dir_depth_.toNat = []
    · have e2 : (EncodeToHex n2).drop s.dir_depth_.toNat = [] := by
        apply List.eq_nil_of_length_eq_zero
        rw [← hdl, e1]; rfl
      rw [e1, e2]
    · have e2 : (EncodeToHex n2).drop s.dir_depth_.toNat ≠ [] := by
        intro e
        apply e1
        apply List.eq_nil_of_length_eq_zero
        rw [hdl, e]; rfl
      simpa [e1, e2] using hd
  rw [← List.take_append_drop s.dir_depth_.toNat (EncodeToHex n1),
    ← List.take_append_drop s.dir_depth_.toNat (EncodeToHex n2), ht2, hd2]

namespace FileChunkStore

/-- C10: for a shard depth `0 <= d <= 2 * length`, the path string is defined
and is a function of the root, the depth and the name only (two store
objects with the same root and depth compute the same path, whatever their
ledger, the filesystem and `generate_dirs`), and two different names of
equal length get different path strings, which also differ in their
components. -/
theorem C10_sharding_deterministic_injective (s1 s2 : FileChunkStore) (disk1 disk2 : Node)
    (g1 g2 : Bool) (n1 n2 : List Byte)
    (hroot : s2.storage_location_ = s1.storage_location_)
    (hdepth : s2.dir_depth_ = s1.dir_depth_)
    (hlen : n1.length = n2.length)
    (h0 : 0 ≤ s1.dir_depth_) (h1 : s1.dir_depth_.toNat ≤ 2 * n1.length) :
    ∃ p1 p2,
      (ChunkNameToFilePath s1 disk1 n1 g1).map Prod.fst = some p1 ∧
      (ChunkNameToFilePath s2 disk2 n1 g2).map Prod.fst = some p1 ∧
      (ChunkNameToFilePath s1 disk1 n2 g1).map Prod.fst = some p2 ∧
      (n1 ≠ n2 → p1 ≠ p2 ∧ (parsePath p1).comps ≠ (parsePath p2).comps) := by
  have hl1 : s1.dir_depth_.toNat ≤ (EncodeToHex n1).length := by
    rw [EncodeToHex_length]; exact h1
  have hl2 : s1.dir_depth_.toNat ≤ (EncodeToHex n2).length := by
    rw [EncodeToHex_length, ← hlen]; exact h1
  refine ⟨chunkFile s1 n1, chunkFile s1 n2, ?_, ?_, ?_, ?_⟩
  · rw [ChunkNameToFilePath_eq s1 disk1 n1 g1 h0 hl1]; rfl
  · rw [ChunkNameToFilePath_fst s1 s2 disk1 disk2 n1 g1 g2 hroot hdepth,
      ChunkNameToFilePath_eq s1 disk1 n1 g1 h0 hl1]; rfl
  · rw [ChunkNameToFilePath_eq s1 disk1 n2 g1 h0 hl2]; rfl
  · intro hne
    exact ⟨fun heq => hne (chunkFile_inj s1 n1 n2 hlen heq),
      fun heq => hne (chunkFile_comps_inj s1 n1 n2 hlen heq)⟩

/-- Witness of C10: the names `ab` and `cd` under the root `/r` with depth 2,
computed by two store objects with different ledgers. -/
theorem C10_sharding_witness :
    ∃ p1 p2,
      (ChunkNameToFilePath exampleStore exampleDisk nameAB false).map Prod.fst = some p1 ∧
      (ChunkNameToFilePath storeABCD diskABCD nameAB true).map Prod.fst = some p1 ∧
      (ChunkNameToFilePath exampleStore exampleDisk nameCD false).map Prod.fst = some p2 ∧
      (nameAB ≠ nameCD → p1 ≠ p2 ∧ (parsePath p1).comps ≠ (parsePath p2).comps) :=
  C10_sharding_deterministic_injective exampleStore storeABCD exampleDisk diskABCD false true
    nameAB nameCD (by decide) (by decide) (by decide) (by decide) (by decide)

end FileChunkStore

theorem slashed_filter (hs rest : List Char) (h1 : ∀ c ∈ hs, c ≠ '/')
    (h2 : ∀ c ∈ rest, c ≠ '/') :
    (slashed hs ++ '/' :: rest).filter (fun c => c != '/') = hs ++ rest := by
  induction hs with
  | nil =>
    simp only [slashed, List.nil_append]
    rw [List.filter_cons_of_neg (by simp)]
    rw [List.filter_eq_self]
    intro c hc
    simpa using h2 c hc
  | cons x xs ih =>
    have hx : x ≠ '/' := h1 x (by simp)
    have := ih (fun d hd => h1 d (by simp [hd]))
    simp only [slashed, List.cons_append]
    rw [List.filter_cons_of_neg (by simp), List.filter_cons_of_pos (by simpa using hx), this]

theorem slashed_count (hs rest : List Char) (h1 : ∀ c ∈ hs, c ≠ '/')
    (h2 : ∀ c ∈ rest, c ≠ '/') :
    (slashed hs ++ '/' :: rest).count '/' = hs.length + 1 := by
  induction hs with
  | nil =>
    simp only [slashed, List.nil_append, List.count_cons_self, List.length_nil]
    rw [List.count_eq_zero_of_not_mem]
    intro hm
    exact h2 _ hm rfl
  | cons x xs ih =>
    have hx : x ≠ '/' := h1 x (by simp)
    have := ih (fun d hd => h1 d (by simp [hd]))
    simp only [slashed, List.cons_append, List.count_cons_self, List.length_cons]
    rw [List.count_cons, this]
    simp [hx]

namespace FileChunkStore

/-- C11: for a shard depth `0 <= d <= 2 * len(name)` the path string is the
root followed by `/h0/h1/.../h(d-1)/` and the hex suffix `h[d..]`; its length
is `len(root) + 2 * len(name) + d + 1`, the part after the root holds
exactly `d + 1` separators, and dropping them gives back the hex encoding
`h`, which has two characters per byte. -/
theorem C11_path_layout (s : FileChunkStore) (disk : Node) (name : List Byte) (g : Bool)
    (h0 : 0 ≤ s.dir_depth_) (h1 : s.dir_depth_.toNat ≤ 2 * name.length) :
    ∃ p, (ChunkNameToFilePath s disk name g).map Prod.fst = some p ∧
      p = s.storage_location_ ++
        (slashed ((EncodeToHex name).take s.dir_depth_.toNat) ++
          '/' :: (EncodeToHex name).drop s.dir_depth_.toNat) ∧
      (EncodeToHex name).length = 2 * name.length ∧
      p.length = s.storage_location_.length + 2 * name.length + s.dir_depth_.toNat + 1 ∧
      (p.drop s.storage_location_.length).count '/' = s.dir_depth_.toNat + 1 ∧
      (p.drop s.storage_location_.length).filter (fun c => c != '/') = EncodeToHex name := by
  have hl : s.dir_depth_.toNat ≤ (EncodeToHex name).length := by
    rw [EncodeToHex_length]; exact h1
  have ht : ∀ c ∈ (EncodeToHex name).take s.dir_depth_.toNat, c ≠ '/' :=
    fun c hc => EncodeToHex_no_slash name c (List.mem_of_mem_take hc)
  have hd : ∀ c ∈ (EncodeToHex name).drop s.dir_depth_.toNat, c ≠ '/' :=
    fun c hc => EncodeToHex_no_slash name c (List.mem_of_mem_drop hc)
  refine ⟨chunkFile s name, ?_, rfl, EncodeToHex_length name, ?_, ?_, ?_⟩
  · rw [ChunkNameToFilePath_eq s disk name g h0 hl]; rfl
  · have := EncodeToHex_length name
    simp only [chunkFile, List.length_append, slashed_length, List.length_take,
      List.length_cons, List.length_drop]
    omega
  · simp only [chunkFile, List.drop_left]
    rw [slashed_count _ _ ht hd]
    simp [hl]
  · simp only [chunkFile, List.drop_left]
    rw [slashed_filter _ _ ht hd, List.take_append_drop]

/-- Witness of C11: the name `ab` under the root `/r` with depth 2 gives
`/r/6/1/62`. -/
theorem C11_path_layout_witness :
    ∃ p, (ChunkNameToFilePath exampleStore exampleDisk nameAB true).map Prod.fst = some p ∧
      p = exampleStore.storage_location_ ++
        (slashed ((EncodeToHex nameAB).take exampleStore.dir_depth_.toNat) ++
          '/' :: (EncodeToHex nameAB).drop exampleStore.dir_depth_.toNat) ∧
      (EncodeToHex nameAB).length = 2 * nameAB.length ∧
      p.length = exampleStore.storage_location_.length + 2 * nameAB.length +
        exampleStore.dir_depth_.toNat + 1 ∧
      (p.drop exampleStore.storage_location_.length).count '/' =
        exampleStore.dir_depth_.toNat + 1 ∧
      (p.drop exampleStore.storage_location_.length).filter (fun c => c != '/') =
        EncodeToHex nameAB :=
  C11_path_layout exampleStore exampleDisk nameAB true (by decide) (by decide)

/-- C12 (the defect, in general): on a store that is not initialised `Store`
(both overloads), `Delete`, `Has`, `Validate` and `MoveTo` return false,
`Get(name)` returns empty content, `Size(name)` and `Count()` return 0,
`Empty()` returns true, and store object and filesystem are unchanged; but
`Get(name, sink_file_name)` returns true, because the source returns the
string literal `""` from a function that returns `bool`. -/
theorem C12_uninitialised_gating (Hash : List Byte → List Byte) (s : FileChunkStore)
    (disk : Node) (name content : List Byte) (source_file_name sink_file_name : List Char)
    (delete_source_file : Bool) (sink_chunk_store : Option FileChunkStore)
    (huninit : s.initialised_ = false) :
    Store s disk name content = some (false, s, disk) ∧
    StoreFromFile s disk name source_file_name delete_source_file = some (false, s, disk) ∧
    Delete s disk name = some (false, s, disk) ∧
    Has s disk name = some false ∧
    Validate Hash s disk name = some (false, s, disk) ∧
    MoveTo s disk name sink_chunk_store = some (false, s, sink_chunk_store, disk) ∧
    Get s disk name = some [] ∧
    Size s disk name = some 0 ∧
    Count s = 0 ∧
    Empty s = true ∧
    GetToFile s disk name sink_file_name = some (true, disk) := by
  simp [Store, StoreFromFile, Delete, Has, Validate, MoveTo, Get, Size, Count, Empty,
    GetToFile, IsChunkStoreInitialised, huninit]

/-- Witness of C12: a newly constructed store; `Get(ab, "/x")` returns true. -/
theorem C12_uninitialised_gating_witness :
    Store ctor exampleDisk nameAB [1] = some (false, ctor, exampleDisk) ∧
    StoreFromFile ctor exampleDisk nameAB ['/', 'x'] true = some (false, ctor, exampleDisk) ∧
    Delete ctor exampleDisk nameAB = some (false, ctor, exampleDisk) ∧
    Has ctor exampleDisk nameAB = some false ∧
    Validate toyHash ctor exampleDisk nameAB = some (false, ctor, exampleDisk) ∧
    MoveTo ctor exampleDisk nameAB (some storeB) =
      some (false, ctor, some storeB, exampleDisk) ∧
    Get ctor exampleDisk nameAB = some [] ∧
    Size ctor exampleDisk nameAB = some 0 ∧
    Count ctor = 0 ∧
    Empty ctor = true ∧
    GetToFile ctor exampleDisk nameAB ['/', 'x'] = some (true, exampleDisk) :=
  C12_uninitialised_gating toyHash ctor exampleDisk nameAB [1] ['/', 'x'] ['/', 'x'] true
    (some storeB) (by decide)

/-- C13 (as stated, refuted): the store `storeAB` is initialised and already
holds the chunk `ab`; `Store(ab, "")` with empty content returns true. -/
theorem C13_store_rejection_counterexample :
    storeAB.initialised_ = true ∧ Has storeAB diskAB nameAB = some true ∧
    Store storeAB diskAB nameAB [] = some (true, storeAB, diskAB) := by
  decide

/-- With `generate_dirs` true the path is defined whenever it is with
`generate_dirs` false. -/
theorem ChunkNameToFilePath_true_of_false (s : FileChunkStore) (disk disk1 : Node)
    (name : List Byte) (p : List Char)
    (h : ChunkNameToFilePath s disk name false = some (p, disk1)) :
    ∃ disk2, ChunkNameToFilePath s disk name true = some (p, disk2) := by
  simp only [ChunkNameToFilePath] at h ⊢
  cases hk : dirNamesLoop (EncodeToHex name) s.dir_depth_.toNat with
  | none => simp [hk] at h
  | some x =>
    simp only [hk, Option.some.injEq, Prod.mk.injEq] at h
    exact ⟨fs.create_directories disk (s.storage_location_ ++ (x ++ ['/'])), by simp [← h.1]⟩

/-- C13 (amended): `Store(name, content)` returns false and leaves the store
object unchanged when the store is not initialised, when the name is empty,
and when the content is empty and the name is not already present; whenever
one of the three conditions of the claim holds, whatever `Store` returns,
the store object (count, total size) is unchanged. -/
theorem C13_store_rejection (s : FileChunkStore) (disk : Node) (name content : List Byte) :
    (s.initialised_ = false → Store s disk name content = some (false, s, disk)) ∧
    (name = [] → Store s disk name content = some (false, s, disk)) ∧
    (content = [] → Has s disk name = some false →
      ∃ disk1, Store s disk name content = some (false, s, disk1)) ∧
    (s.initialised_ = false ∨ name = [] ∨ content = [] →
      ∀ r s1 disk1, Store s disk name content = some (r, s1, disk1) → s1 = s) := by
  have h1 : s.initialised_ = false → Store s disk name content = some (false, s, disk) := by
    intro h; simp [Store, IsChunkStoreInitialised, h]
  have h2 : name = [] → Store s disk name content = some (false, s, disk) := by
    intro h; subst h
    cases hi : s.initialised_ <;> simp [Store, IsChunkStoreInitialised, hi]
  have h3 : content = [] → ∀ r s1 disk1, Store s disk name content = some (r, s1, disk1) →
      s1 = s := by
    intro hc r s1 disk1 hs
    subst hc
    by_cases hi : s.initialised_ = true
    · by_cases hn : name = []
      · rw [h2 hn] at hs; cases hs; rfl
      · have hn2 : name.isEmpty = false := by cases name <;> simp_all
        simp only [Store, IsChunkStoreInitialised, hi, hn2] at hs
        cases hh : Has s disk name with
        | none => simp [hh] at hs
        | some b =>
          cases b with
          | true => simp [hh] at hs; exact hs.2.1.symm
          | false =>
            simp only [hh] at hs
            cases hp : ChunkNameToFilePath s disk name true with
            | none => simp [hp] at hs
            | some q => simp [hp] at hs; exact hs.2.1.symm
    · have hi2 : s.initialised_ = false := by simpa using hi
      rw [h1 hi2] at hs; cases hs; rfl
  refine ⟨h1, h2, ?_, ?_⟩
  · intro hc habsent
    subst hc
    by_cases hi : s.initialised_ = true
    · by_cases hn : name = []
      · exact ⟨disk, h2 hn⟩
      · have hn2 : name.isEmpty = false := by cases name <;> simp_all
        have hh := habsent
        simp only [Has, IsChunkStoreInitialised, hi, hn2] at hh
        cases hp : ChunkNameToFilePath s disk name false with
        | none => simp [hp] at hh
        | some q =>
          obtain ⟨p, d0⟩ := q
          obtain ⟨disk2, hp2⟩ := ChunkNameToFilePath_true_of_false s disk d0 name p hp
          exact ⟨disk2, by simp [Store, IsChunkStoreInitialised, hi, hn2, habsent, hp2]⟩
    · have hi2 : s.initialised_ = false := by simpa using hi
      exact ⟨disk, h1 hi2⟩
  · intro hor r s1 disk1 hs
    rcases hor with h | h | h
    · rw [h1 h] at hs; cases hs; rfl
    · rw [h2 h] at hs; cases hs; rfl
    · exact h3 h r s1 disk1 hs

/-- Witness of C13 (amended): an uninitialised store, the empty name, and the
empty content for the absent name `ab` on the fresh store. -/
theorem C13_store_rejection_witness :
    Store ctor exampleDisk nameAB [1] = some (false, ctor, exampleDisk) ∧
    Store exampleStore exampleDisk [] [1] = some (false, exampleStore, exampleDisk) ∧
    (∃ disk1, Store exampleStore exampleDisk nameAB [] = some (false, exampleStore, disk1)) ∧
    (∀ r s1 disk1, Store storeAB diskAB nameAB [] = some (r, s1, disk1) → s1 = storeAB) :=
  ⟨(C13_store_rejection ctor exampleDisk nameAB [1]).1 (by decide),
   (C13_store_rejection exampleStore exampleDisk [] [1]).2.1 rfl,
   (C13_store_rejection exampleStore exampleDisk nameAB []).2.2.1 rfl (by decide),
   (C13_store_rejection storeAB diskAB nameAB []).2.2.2 (Or.inr (Or.inr rfl))⟩

theorem dirNamesLoop_none_iff (hex : List Char) (k : Nat) :
    dirNamesLoop hex k = none ↔ hex.length < k := by
  constructor
  · intro h
    by_contra hc
    rw [dirNamesLoop_eq hex k (by omega)] at h
    simp at h
  · intro h
    cases hk : dirNamesLoop hex k with
    | none => rfl
    | some x =>
      have := dirNamesLoop_some_le hex k x hk
      omega

/-- C14 (the defect, in general and evaluated): `ChunkNameToFilePath` reads
the hex string out of range exactly when the stored depth exceeds the hex
length of the name.  `Init("/r", 5)` succeeds and stores depth 5; for the
one byte name `a`, hex `61` of length 2, the loop reads the indices 0 to 4:
the first two iterations give `/6/1`, index 2 is out of range, and so the
path derivation and every operation that needs the path fall into the
out-of-range branch. -/
theorem C14_out_of_range_read (s : FileChunkStore) (disk : Node) (name : List Byte)
    (g : Bool) :
    (ChunkNameToFilePath s disk name g = none ↔
      (EncodeToHex name).length < s.dir_depth_.toNat) ∧
    Init ctor exampleDisk ['/', 'r'] 5 = (true, storeDepth5, exampleDisk) ∧
    Init ctor exampleDisk ['/', 'r'] 100 =
      (true, { exampleStore with dir_depth_ := 63 }, exampleDisk) ∧
    EncodeToHex [0x61] = ['6', '1'] ∧
    dirNamesLoop ['6', '1'] 2 = some ['/', '6', '/', '1'] ∧
    (['6', '1'] : List Char)[2]? = none ∧
    dirNamesLoop ['6', '1'] 3 = none ∧
    ChunkNameToFilePath storeDepth5 exampleDisk [0x61] false = none ∧
    Has storeDepth5 exampleDisk [0x61] = none ∧
    Store storeDepth5 exampleDisk [0x61] [1] = none := by
  refine ⟨?_, by decide, by decide, by decide, by decide, by decide, by decide, by decide,
    by decide, by decide⟩
  rw [← dirNamesLoop_none_iff]
  simp only [ChunkNameToFilePath]
  cases dirNamesLoop (EncodeToHex name) s.dir_depth_.toNat <;> simp

/-- C15: on an initialised store with shard depth `0 <= d` smaller than the
hex length of the non-empty name, with `Has(name)` false, a non-empty
content, `Vacant(content.size())` true and a successful file write,
`Store(name, content)` returns true; afterwards `Has(name)` is true,
`Get(name)` is the content, and `ChunkAdded` has increased the count by one
and the total size by `content.size()` (unsigned arithmetic; exactly when
nothing overflows). -/
theorem C15_store_new_name (s : FileChunkStore) (disk disk2 : Node)
    (name content : List Byte)
    (hinit : s.initialised_ = true) (hname : name ≠ [])
    (hdepth0 : 0 ≤ s.dir_depth_) (hdepth : s.dir_depth_.toNat < (EncodeToHex name).length)
    (habsent : Has s disk name = some false) (hcontent : content ≠ [])
    (hvacant : Vacant s content.length = true)
    (hwrite : WriteFile (fs.create_directories disk (shardDir s name)) (chunkFile s name)
      content = some disk2) :
    ∃ s1, Store s disk name content = some (true, s1, disk2) ∧
      Has s1 disk2 name = some true ∧
      Get s1 disk2 name = some content ∧
      s1.chunk_count_ = (s.chunk_count_ + 1) % UINTMAX_MOD ∧
      s1.size_ = (s.size_ + content.length) % UINTMAX_MOD ∧
      (s.chunk_count_ + 1 < UINTMAX_MOD → s1.chunk_count_ = s.chunk_count_ + 1) ∧
      (s.size_ + content.length < UINTMAX_MOD → s1.size_ = s.size_ + content.length) := by
  have hn : name.isEmpty = false := by cases name <;> simp_all
  have hc : content.isEmpty = false := by cases content <;> simp_all
  have hle : s.dir_depth_.toNat ≤ (EncodeToHex name).length := by omega
  have hpath := ChunkNameToFilePath_eq s disk name true hdepth0 hle
  simp only [if_true] at hpath
  obtain ⟨ha1, ha2, ha3, _⟩ := ChunkAdded_fields s content.length
  obtain ⟨l1, l2⟩ := ChunkAdded_ledger s content.length
  have hp1 := ChunkNameToFilePath_false s (ChunkAdded s content.length) disk _ disk2 name
    true _ ha2 ha3 hpath
  have hfile := fs.status_write_file _ _ _ _ hwrite
  refine ⟨ChunkAdded s content.length, ?_, ?_, ?_, l1, l2, ?_, ?_⟩
  · simp [Store, IsChunkStoreInitialised, hinit, hn, habsent, hpath, hc, hvacant, hwrite]
  · simp [Has, IsChunkStoreInitialised, ha1.trans hinit, hn, hp1, fs.path_exists, hfile]
  · simp [Get, IsChunkStoreInitialised, ha1.trans hinit, hp1, ReadFile, hfile]
  · intro h; rw [l1]; exact Nat.mod_eq_of_lt h
  · intro h; rw [l2]; exact Nat.mod_eq_of_lt h

/-- Witness of C15: the byte 1 stored under `ab` in the fresh store. -/
theorem C15_store_new_name_witness :
    ∃ s1, Store exampleStore exampleDisk nameAB [1] = some (true, s1, diskAB) ∧
      Has s1 diskAB nameAB = some true ∧
      Get s1 diskAB nameAB = some [1] ∧
      s1.chunk_count_ = (exampleStore.chunk_count_ + 1) % UINTMAX_MOD ∧
      s1.size_ = (exampleStore.size_ + ([1] : List Byte).length) % UINTMAX_MOD ∧
      (exampleStore.chunk_count_ + 1 < UINTMAX_MOD →
        s1.chunk_count_ = exampleStore.chunk_count_ + 1) ∧
      (exampleStore.size_ + ([1] : List Byte).length < UINTMAX_MOD →
        s1.size_ = exampleStore.size_ + ([1] : List Byte).length) :=
  C15_store_new_name exampleStore exampleDisk diskAB nameAB [1]
    (by decide) (by decide) (by decide) (by decide) (by decide) (by decide) (by decide)
    (by decide)

/-- The loop of `RetrieveChunkInfo` adds the reference counts of the entries
to its accumulator, modulo `2 ^ 64`. -/
theorem RetrieveChunkInfoLoop_eq : ∀ (es : Entries) (a b : Nat),
    (RetrieveChunkInfoLoop es (a, b)).1 % UINTMAX_MOD = (a + es.regularFiles) % UINTMAX_MOD ∧
    (RetrieveChunkInfoLoop es (a, b)).2 % UINTMAX_MOD = (b + es.regularBytes) % UINTMAX_MOD ∧
    (a < UINTMAX_MOD → (RetrieveChunkInfoLoop es (a, b)).1 < UINTMAX_MOD) ∧
    (b < UINTMAX_MOD → (RetrieveChunkInfoLoop es (a, b)).2 < UINTMAX_MOD)
  | .nil, a, b => by
    simp only [RetrieveChunkInfoLoop, Entries.regularFiles, Entries.regularBytes]
    exact ⟨rfl, rfl, id, id⟩
  | .cons _ (.file c) rest, a, b => by
    have ih := RetrieveChunkInfoLoop_eq rest ((a + 1) % UINTMAX_MOD)
      ((b + c.length) % UINTMAX_MOD)
    simp only [RetrieveChunkInfoLoop, Entries.regularFiles, Entries.regularBytes]
    revert ih
    generalize (RetrieveChunkInfoLoop rest
      ((a + 1) % UINTMAX_MOD, (b + c.length) % UINTMAX_MOD)).1 = x
    generalize (RetrieveChunkInfoLoop rest
      ((a + 1) % UINTMAX_MOD, (b + c.length) % UINTMAX_MOD)).2 = y
    unfold UINTMAX_MOD
    intro ih
    refine ⟨by omega, by omega, fun _ => ih.2.2.1 (by omega), fun _ => ih.2.2.2 (by omega)⟩
  | .cons _ (.dir es) rest, a, b => by
    have ih1 := RetrieveChunkInfoLoop_eq es 0 0
    have ih2 := RetrieveChunkInfoLoop_eq rest
      ((a + (RetrieveChunkInfoLoop es (0, 0)).1) % UINTMAX_MOD)
      ((b + (RetrieveChunkInfoLoop es (0, 0)).2) % UINTMAX_MOD)
    simp only [RetrieveChunkInfoLoop, Entries.regularFiles, Entries.regularBytes]
    revert ih1 ih2
    generalize (RetrieveChunkInfoLoop rest
      ((a + (RetrieveChunkInfoLoop es (0, 0)).1) % UINTMAX_MOD,
       (b + (RetrieveChunkInfoLoop es (0, 0)).2) % UINTMAX_MOD)).1 = x
    generalize (RetrieveChunkInfoLoop rest
      ((a + (RetrieveChunkInfoLoop es (0, 0)).1) % UINTMAX_MOD,
       (b + (RetrieveChunkInfoLoop es (0, 0)).2) % UINTMAX_MOD)).2 = y
    generalize (RetrieveChunkInfoLoop es (0, 0)).1 = i1
    generalize (RetrieveChunkInfoLoop es (0, 0)).2 = i2
    unfold UINTMAX_MOD
    intro ih1 ih2
    refine ⟨by omega, by omega, fun _ => ih2.2.2.1 (by omega), fun _ => ih2.2.2.2 (by omega)⟩
  | .cons _ .other rest, a, b => by
    have ih := RetrieveChunkInfoLoop_eq rest a b
    simp only [RetrieveChunkInfoLoop, Entries.regularFiles, Entries.regularBytes]
    exact ih

/-- The scan of a node gives its reference counts modulo `2 ^ 64`. -/
theorem RetrieveChunkInfoNode_eq (n : Node) :
    RetrieveChunkInfoNode n =
      (n.regularFiles % UINTMAX_MOD, n.regularBytes % UINTMAX_MOD) := by
  cases n with
  | file c => simp [RetrieveChunkInfoNode, Node.regularFiles, Node.regularBytes]
  | other => simp [RetrieveChunkInfoNode, Node.regularFiles, Node.regularBytes]
  | dir es =>
    obtain ⟨h1, h2, h3, h4⟩ := RetrieveChunkInfoLoop_eq es 0 0
    have b1 := h3 (by unfold UINTMAX_MOD; omega)
    have b2 := h4 (by unfold UINTMAX_MOD; omega)
    simp only [RetrieveChunkInfoNode, Node.regularFiles, Node.regularBytes]
    rw [Nat.zero_add] at h1 h2
    rw [Nat.mod_eq_of_lt b1] at h1
    rw [Nat.mod_eq_of_lt b2] at h2
    exact Prod.ext h1 h2

/-- C16: `RetrieveChunkInfo` is total, and for the tree found at the location
it returns the number of regular files anywhere in the tree and the sum of
their sizes, as `std::uintmax_t` values (exactly the two numbers when they
fit 64 bits); an entry that is neither a regular file nor a directory leaves
the running result as it is, and a location that names nothing gives
(0, 0). -/
theorem C16_recovery_scan (disk : Node) (location : List Char) :
    (∀ n, fs.status disk location = some n →
      RetrieveChunkInfo disk location =
        (n.regularFiles % UINTMAX_MOD, n.regularBytes % UINTMAX_MOD) ∧
      (n.regularFiles < UINTMAX_MOD → n.regularBytes < UINTMAX_MOD →
        RetrieveChunkInfo disk location = (n.regularFiles, n.regularBytes))) ∧
    (fs.status disk location = none → RetrieveChunkInfo disk location = (0, 0)) ∧
    (∀ (k : List Char) (rest : Entries) (info : Nat × Nat),
      RetrieveChunkInfoLoop (.cons k .other rest) info = RetrieveChunkInfoLoop rest info) := by
  refine ⟨?_, ?_, ?_⟩
  · intro n hn
    have h : RetrieveChunkInfo disk location =
        (n.regularFiles % UINTMAX_MOD, n.regularBytes % UINTMAX_MOD) := by
      simp only [RetrieveChunkInfo, hn]
      exact RetrieveChunkInfoNode_eq n
    refine ⟨h, ?_⟩
    intro h1 h2
    rw [h, Nat.mod_eq_of_lt h1, Nat.mod_eq_of_lt h2]
  · intro hn
    simp only [RetrieveChunkInfo, hn]
  · intro k rest info
    simp only [RetrieveChunkInfoLoop]

/-- Witness of C16: the nested tree under `/r` holds 3 regular files with 6
bytes in all. -/
theorem C16_recovery_scan_witness :
    fs.status diskNested ['/', 'r'] = some treeNested ∧
    RetrieveChunkInfo diskNested ['/', 'r'] =
      (treeNested.regularFiles, treeNested.regularBytes) ∧
    treeNested.regularFiles = 3 ∧ treeNested.regularBytes = 6 :=
  ⟨by decide,
   ((C16_recovery_scan diskNested ['/', 'r']).1 treeNested (by decide)).2
     (by decide) (by decide),
   by decide, by decide⟩

end FileChunkStore

theorem Entries.set_of_find : ∀ (es : Entries) (k : List Char) (v : Node),
    es.find k = some v → es.set k v = es
  | .nil, k, v, h => by simp [Entries.find] at h
  | .cons k2 w rest, k, v, h => by
    by_cases hk : k2 = k
    · simp only [Entries.find, hk, if_true, Option.some.injEq] at h
      simp [Entries.set, hk, h]
    · simp only [Entries.find, hk, if_false] at h
      simp [Entries.set, hk, Entries.set_of_find rest k v h]

theorem Entries.eq_nil_of_isEmpty (es : Entries) (h : es.isEmpty = true) : es = .nil := by
  cases es with
  | nil => rfl
  | cons _ _ _ => simp [Entries.isEmpty] at h

/-- Creating directories along a path below which something exists changes
nothing. -/
theorem Node.mkdirs_of_lookup : ∀ (p q : List (List Char)) (n m : Node),
    n.lookup (p ++ q) = some m → n.mkdirs p = n := by
  intro p
  induction p with
  | nil => intro q n m _; cases n <;> rfl
  | cons c cs ih =>
    intro q n m h
    cases n with
    | file _ => rfl
    | other => rfl
    | dir es =>
      rw [List.cons_append, Node.lookup_dir_cons] at h
      cases hf : es.find c with
      | none => simp [hf] at h
      | some m0 =>
        simp only [hf, Option.bind] at h
        simp only [Node.mkdirs, hf, ih q m0 m h, Entries.set_of_find es c m0 hf]

/-- Removing the object at `q` leaves a regular file at another path in place. -/
theorem Node.lookup_removeAt_file : ∀ (q : List (List Char)) (n n2 : Node)
    (p : List (List Char)) (c : List Byte), n.removeAt q = some n2 → p ≠ q →
    n.lookup p = some (.file c) → n2.lookup p = some (.file c) := by
  intro q
  induction q with
  | nil => intro n n2 p c h; cases n <;> simp [Node.removeAt] at h
  | cons k ks ih =>
    intro n n2 p c h hne hp
    cases n with
    | file _ => simp [Node.removeAt] at h; subst h; exact hp
    | other => simp [Node.removeAt] at h; subst h; exact hp
    | dir es =>
      cases p with
      | nil => simp [Node.lookup] at hp
      | cons k1 ps =>
        rw [Node.lookup_dir_cons] at hp
        cases hf1 : es.find k1 with
        | none => simp [hf1] at hp
        | some m =>
          simp only [hf1, Option.bind] at hp
          by_cases hk : k = k1
          · subst hk
            cases ks with
            | nil =>
              exfalso
              cases m with
              | file c2 =>
                cases ps with
                | nil => exact hne rfl
                | cons _ _ => simp [Node.lookup] at hp
              | other =>
                cases ps <;> simp [Node.lookup] at hp
              | dir sub =>
                simp only [Node.removeAt, hf1] at h
                split at h
                · rename_i hemp
                  have := Entries.eq_nil_of_isEmpty sub hemp
                  subst this
                  cases ps with
                  | nil => simp [Node.lookup] at hp
                  | cons _ _ => simp [Node.lookup_dir_cons, Entries.find] at hp
                · simp at h
            | cons k2 ks2 =>
              simp only [Node.removeAt, hf1] at h
              cases hr : m.removeAt (k2 :: ks2) with
              | none => simp [hr] at h
              | some m2 =>
                simp only [hr, Option.some.injEq] at h
                subst h
                rw [Node.lookup_dir_cons, Entries.find_set_same]
                simp only [Option.bind]
                exact ih m m2 ps c hr (fun e => hne (by rw [e])) hp
          · have hn2 : ∃ es2, n2 = .dir es2 ∧ es2.find k1 = es.find k1 := by
              cases ks with
              | nil =>
                simp only [Node.removeAt] at h
                split at h
                · simp at h; exact ⟨es, h.symm, rfl⟩
                · split at h
                  · simp at h
                    exact ⟨_, h.symm, Entries.find_erase_other _ _ _ hk⟩
                  · simp at h
                · simp at h
                  exact ⟨_, h.symm, Entries.find_erase_other _ _ _ hk⟩
              | cons k2 ks2 =>
                simp only [Node.removeAt] at h
                split at h
                · split at h
                  · simp at h
                    exact ⟨_, h.symm, Entries.find_set_other _ _ _ _ hk⟩
                  · simp at h
                · simp at h; exact ⟨es, h.symm, rfl⟩
            obtain ⟨es2, rfl, hfind⟩ := hn2
            rw [Node.lookup_dir_cons, hfind, hf1]
            exact hp

namespace FileChunkStore

/-- When the chunk path has no trailing `/`, the shard depth is at least 0 and
smaller than the hex length of the name. -/
theorem depth_of_no_slash (s : FileChunkStore) (disk disk1 : Node) (name : List Byte)
    (g : Bool) (p : List Char)
    (hpath : ChunkNameToFilePath s disk name g = some (p, disk1))
    (hslash : (parsePath p).slash = false) :
    0 ≤ s.dir_depth_ ∧ s.dir_depth_.toNat < (EncodeToHex name).length := by
  simp only [ChunkNameToFilePath] at hpath
  cases hk : dirNamesLoop (EncodeToHex name) s.dir_depth_.toNat with
  | none => simp [hk] at hpath
  | some x =>
    have hle := dirNamesLoop_some_le _ _ _ hk
    simp only [hk, Option.some.injEq, Prod.mk.injEq] at hpath
    obtain ⟨hp, _⟩ := hpath
    by_cases hneg : s.dir_depth_ < 0
    · exfalso
      have : p = (s.storage_location_ ++ x) ++ ['/'] := by
        rw [← hp]; simp [eraseFront, hneg]
      rw [this, parsePath_slash_of_append_slash] at hslash
      simp at hslash
    · refine ⟨by omega, ?_⟩
      by_contra hge
      have hdrop : (EncodeToHex name).drop s.dir_depth_.toNat = [] := by
        apply List.drop_eq_nil_of_le; omega
      have : p = (s.storage_location_ ++ x) ++ ['/'] := by
        rw [← hp]; simp [eraseFront, hneg, hdrop]
      rw [this, parsePath_slash_of_append_slash] at hslash
      simp at hslash

/-- When the chunk is a regular file, creating its shard directory changes
nothing. -/
theorem create_directories_of_chunk (s : FileChunkStore) (disk : Node) (name : List Byte)
    (c : List Byte) (hdepth : s.dir_depth_.toNat < (EncodeToHex name).length)
    (hfile : fs.status disk (chunkFile s name) = some (.file c)) :
    fs.create_directories disk (shardDir s name) = disk := by
  obtain ⟨_, _, hl⟩ := (fs.status_file_iff disk _ c).mp hfile
  obtain ⟨hc, _⟩ := parsePath_chunkFile s name hdepth
  rw [hc] at hl
  simp only [fs.create_directories, shardDir_ne_nil, Bool.false_eq_true, if_false]
  exact Node.mkdirs_of_lookup _ _ _ _ hl

/-- C17 (as stated, refuted): the store `storeAB` holds the chunk `ab` as the
file `/r/6/1/62`; with that very path as the source and `deleteSource` true,
`Store(ab, source, true)` returns true and leaves the ledger unchanged, but
it removes the chunk: `Has(ab)` is false and `Get(ab)` is empty afterwards. -/
theorem C17_store_from_file_counterexample :
    storeAB.initialised_ = true ∧ Has storeAB diskAB nameAB = some true ∧
    Get storeAB diskAB nameAB = some [1] ∧
    StoreFromFile storeAB diskAB nameAB ['/', 'r', '/', '6', '/', '1', '/', '6', '2'] true =
      some (true, storeAB,
        .dir (.cons ['r'] (.dir (.cons ['6'] (.dir (.cons ['1'] (.dir .nil) .nil)) .nil))
          .nil)) ∧
    Has storeAB
      (.dir (.cons ['r'] (.dir (.cons ['6'] (.dir (.cons ['1'] (.dir .nil) .nil)) .nil)) .nil))
      nameAB = some false ∧
    Get storeAB
      (.dir (.cons ['r'] (.dir (.cons ['6'] (.dir (.cons ['1'] (.dir .nil) .nil)) .nil)) .nil))
      nameAB = some [] := by
  decide

/-- C17 (amended): on an initialised store where the chunk for the name is a
regular file with content `c`, for every source path that does not name the
chunk file itself and both values of `deleteSource`,
`Store(name, source, deleteSource)` returns true and leaves the store object
(count, total size) unchanged; the chunk is still present with content `c`;
with `deleteSource` false the filesystem is unchanged, and with `deleteSource`
true a source that was a regular file is gone afterwards. -/
theorem C17_store_from_file_existing (s : FileChunkStore) (disk : Node) (name : List Byte)
    (p : List Char) (c : List Byte) (source_file_name : List Char)
    (delete_source_file : Bool)
    (hinit : s.initialised_ = true) (hname : name ≠ [])
    (hpath : ChunkNameToFilePath s disk name false = some (p, disk))
    (hfile : fs.status disk p = some (.file c))
    (hsource : (parsePath source_file_name).comps ≠ (parsePath p).comps) :
    ∃ disk2, StoreFromFile s disk name source_file_name delete_source_file =
        some (true, s, disk2) ∧
      Has s disk2 name = some true ∧
      Get s disk2 name = some c ∧
      (delete_source_file = false → disk2 = disk) ∧
      (delete_source_file = true →
        ∀ c2, fs.status disk source_file_name = some (.file c2) →
          fs.status disk2 source_file_name = none) := by
  have hn : name.isEmpty = false := by cases name <;> simp_all
  obtain ⟨hp0, hps, hpl⟩ := (fs.status_file_iff disk p c).mp hfile
  obtain ⟨hd0, hd1⟩ := depth_of_no_slash s disk disk name false p hpath hps
  have hle : s.dir_depth_.toNat ≤ (EncodeToHex name).length := by omega
  have hp1 := ChunkNameToFilePath_eq s disk name false hd0 hle
  rw [hpath] at hp1
  simp only [Bool.false_eq_true, if_false, Option.some.injEq, Prod.mk.injEq, and_true] at hp1
  subst hp1
  have hmk := create_directories_of_chunk s disk name c hd1 hfile
  have hpt := ChunkNameToFilePath_eq s disk name true hd0 hle
  simp only [if_true, hmk] at hpt
  have hex : fs.path_exists disk (chunkFile s name) = true := by
    simp [fs.path_exists, hfile]
  -- what is true of any filesystem on which the chunk is still the file `c`
  have hafter : ∀ disk2, fs.status disk2 (chunkFile s name) = some (.file c) →
      Has s disk2 name = some true ∧ Get s disk2 name = some c := by
    intro disk2 h2
    have hp2 := ChunkNameToFilePath_false s s disk disk disk2 name false _ rfl rfl hpath
    constructor
    · simp [Has, IsChunkStoreInitialised, hinit, hn, hp2, fs.path_exists, h2]
    · simp [Get, IsChunkStoreInitialised, hinit, hp2, ReadFile, h2]
  cases delete_source_file with
  | false =>
    refine ⟨disk, ?_, (hafter disk hfile).1, (hafter disk hfile).2, fun _ => rfl, ?_⟩
    · simp [StoreFromFile, IsChunkStoreInitialised, hinit, hn, hpt, hex]
    · intro h; simp at h
  | true =>
    cases hr : fs.remove disk source_file_name with
    | none =>
      refine ⟨disk, ?_, (hafter disk hfile).1, (hafter disk hfile).2, fun _ => rfl, ?_⟩
      · simp [StoreFromFile, IsChunkStoreInitialised, hinit, hn, hpt, hex, hr]
      · intro _ c2 hc2
        obtain ⟨d, hd, _⟩ := fs.remove_file disk source_file_name c2 hc2
        rw [hr] at hd
        simp at hd
    | some disk2 =>
      have hkeep : fs.status disk2 (chunkFile s name) = some (.file c) := by
        have hr2 := hr
        unfold fs.remove at hr2
        cases hst : fs.status disk source_file_name with
        | none =>
          simp only [hst, Option.some.injEq] at hr2
          subst hr2; exact hfile
        | some m =>
          simp only [hst] at hr2
          have := Node.lookup_removeAt_file _ disk disk2 _ c hr2 (fun e => hsource e.symm) hpl
          exact (fs.status_file_iff disk2 _ c).mpr ⟨hp0, hps, this⟩
      refine ⟨disk2, ?_, (hafter disk2 hkeep).1, (hafter disk2 hkeep).2, ?_, ?_⟩
      · simp [StoreFromFile, IsChunkStoreInitialised, hinit, hn, hpt, hex, hr]
      · intro h; simp at h
      · intro _ c2 _
        exact fs.status_remove disk disk2 source_file_name hr

/-- Witness of C17 (amended): the store holds `ab`, the source is the file
`/src` and `deleteSource` is true. -/
theorem C17_store_from_file_existing_witness :
    ∃ disk2, StoreFromFile storeAB diskABSrc nameAB ['/', 's', 'r', 'c'] true =
        some (true, storeAB, disk2) ∧
      Has storeAB disk2 nameAB = some true ∧
      Get storeAB disk2 nameAB = some [1] ∧
      (true = false → disk2 = diskABSrc) ∧
      (true = true →
        ∀ c2, fs.status diskABSrc ['/', 's', 'r', 'c'] = some (.file c2) →
          fs.status disk2 ['/', 's', 'r', 'c'] = none) :=
  C17_store_from_file_existing storeAB diskABSrc nameAB
    ['/', 'r', '/', '6', '/', '1', '/', '6', '2'] [1] ['/', 's', 'r', 'c'] true
    (by decide) (by decide) (by decide) (by decide) (by decide)

/-- C18 (the defect, in general and evaluated): on an initialised store and
for a non-empty name under which nothing is stored, `Delete` returns true
and `MoveTo` returns false without touching the ledger, but `Validate`,
when the digest of the empty content is not the name, calls
`ChunkRemoved(Size(name))` with size 0 and so decrements `chunk_count`.
Right after `Init` on the fresh directory `/r` the count is 0 when it is
decremented; on the store with two chunks the count drops to 1 while both
files are still there. -/
theorem C18_validate_decrements_absent (Hash : List Byte → List Byte) (s : FileChunkStore)
    (disk : Node) (name : List Byte) (p : List Char)
    (sink_chunk_store : Option FileChunkStore)
    (hinit : s.initialised_ = true) (hname : name ≠ [])
    (hpath : ChunkNameToFilePath s disk name false = some (p, disk))
    (habsent : fs.status disk p = none) (hhash : name ≠ Hash []) :
    Delete s disk name = some (true, s, disk) ∧
    MoveTo s disk name sink_chunk_store = some (false, s, sink_chunk_store, disk) ∧
    Validate Hash s disk name = some (false, ChunkRemoved s 0, disk) ∧
    ((ChunkRemoved s 0).chunk_count_ + 1) % UINTMAX_MOD = s.chunk_count_ % UINTMAX_MOD ∧
    (s.chunk_count_ < UINTMAX_MOD → (ChunkRemoved s 0).chunk_count_ ≠ s.chunk_count_) := by
  have hn : name.isEmpty = false := by cases name <;> simp_all
  have hHas : Has s disk name = some false := by
    simp [Has, IsChunkStoreInitialised, hinit, hn, hpath, fs.path_exists, habsent]
  have hDel : ∀ s2 : FileChunkStore, s2.initialised_ = true →
      s2.storage_location_ = s.storage_location_ → s2.dir_depth_ = s.dir_depth_ →
      Delete s2 disk name = some (true, s2, disk) := by
    intro s2 h1 h2 h3
    have hp2 := ChunkNameToFilePath_false s s2 disk disk disk name false p h2 h3 hpath
    simp [Delete, Has, IsChunkStoreInitialised, h1, hn, hp2, fs.path_exists, habsent]
  obtain ⟨hf1, hf2, hf3, _⟩ := ChunkRemoved_fields s 0
  obtain ⟨l1, _, _, _⟩ := ChunkRemoved_ledger s 0
  refine ⟨hDel s hinit rfl rfl, ?_, ?_, l1, ?_⟩
  · cases sink_chunk_store with
    | none => simp [MoveTo, IsChunkStoreInitialised, hinit]
    | some sink => simp [MoveTo, IsChunkStoreInitialised, hinit, hn, hHas]
  · have hd := hDel (ChunkRemoved s 0) (hf1.trans hinit) hf2 hf3
    simp [Validate, Get, Size, IsChunkStoreInitialised, hinit, hn, hpath, ReadFile,
      fs.file_size, habsent, hhash, hd]
  · intro hlt heq
    rw [heq] at l1
    revert l1 hlt
    generalize s.chunk_count_ = x
    unfold UINTMAX_MOD
    omega

/-- Witness of C18: `Validate(ab)` right after `Init` on the fresh directory
`/r` decrements the count 0, which wraps to `2 ^ 64 - 1`; `Validate(ef)` on
the store with the two chunks `ab` and `cd` leaves count 1 for two files. -/
theorem C18_validate_decrements_absent_witness :
    Init ctor exampleDisk ['/', 'r'] 2 = (true, exampleStore, exampleDisk) ∧
    exampleStore.chunk_count_ = 0 ∧
    Validate toyHash exampleStore exampleDisk nameAB =
      some (false, ChunkRemoved exampleStore 0, exampleDisk) ∧
    (ChunkRemoved exampleStore 0).chunk_count_ = UINTMAX_MOD - 1 ∧
    Has storeABCD diskABCD [0x65, 0x66] = some false ∧
    Validate toyHash storeABCD diskABCD [0x65, 0x66] =
      some (false, ChunkRemoved storeABCD 0, diskABCD) ∧
    (ChunkRemoved storeABCD 0).chunk_count_ = 1 ∧
    chunksOnDisk storeABCD diskABCD = (2, 4) :=
  ⟨by decide, by decide,
   (C18_validate_decrements_absent toyHash exampleStore exampleDisk nameAB
      ['/', 'r', '/', '6', '/', '1', '/', '6', '2'] none
      (by decide) (by decide) (by decide) (by decide) (by decide)).2.2.1,
   by decide, by decide, by decide, by decide, by decide⟩

end FileChunkStore

/-- Writing a file at `p` does not change what is found at another path of
the same length. -/
theorem Node.lookup_writeAt_frame : ∀ (p : List (List Char)) (n n2 : Node)
    (data : List Byte) (q : List (List Char)), n.writeAt p data = some n2 →
    q.length = p.length → q ≠ p → n2.lookup q = n.lookup q := by
  intro p
  induction p with
  | nil => intro n n2 data q h; cases n <;> simp [Node.writeAt] at h
  | cons c cs ih =>
    intro n n2 data q h hlen hne
    cases n with
    | file _ => simp [Node.writeAt] at h
    | other => simp [Node.writeAt] at h
    | dir es =>
      cases q with
      | nil => simp at hlen
      | cons c1 qs =>
        have hlen2 : qs.length = cs.length := by simpa using hlen
        cases cs with
        | nil =>
          have hqs : qs = [] := List.eq_nil_of_length_eq_zero hlen2
          subst hqs
          have hc : c ≠ c1 := fun e => hne (by rw [e])
          have hn2 : n2 = .dir (es.set c (.file data)) := by
            simp only [Node.writeAt] at h
            split at h <;> simp at h <;> exact h.symm
          subst hn2
          rw [Node.lookup_dir_cons, Node.lookup_dir_cons, Entries.find_set_other _ _ _ _ hc]
        | cons c2 cs2 =>
          simp only [Node.writeAt] at h
          split at h
          · rename_i m hm
            split at h
            · rename_i m2 hm2
              simp at h; subst h
              rw [Node.lookup_dir_cons, Node.lookup_dir_cons]
              by_cases hc : c = c1
              · subst hc
                rw [Entries.find_set_same, hm]
                simp only [Option.bind]
                exact ih m m2 data qs hm2 hlen2 (fun e => hne (by rw [e]))
              · rw [Entries.find_set_other _ _ _ _ hc]
            · simp at h
          · simp at h

/-- Removing the object at `p` does not change what is found at another path
of the same length. -/
theorem Node.lookup_removeAt_frame : ∀ (p : List (List Char)) (n n2 : Node)
    (q : List (List Char)), n.removeAt p = some n2 →
    q.length = p.length → q ≠ p → n2.lookup q = n.lookup q := by
  intro p
  induction p with
  | nil => intro n n2 q h; cases n <;> simp [Node.removeAt] at h
  | cons c cs ih =>
    intro n n2 q h hlen hne
    cases n with
    | file _ => simp [Node.removeAt] at h; subst h; rfl
    | other => simp [Node.removeAt] at h; subst h; rfl
    | dir es =>
      cases q with
      | nil => simp at hlen
      | cons c1 qs =>
        have hlen2 : qs.length = cs.length := by simpa using hlen
        cases cs with
        | nil =>
          have hqs : qs = [] := List.eq_nil_of_length_eq_zero hlen2
          subst hqs
          have hc : c ≠ c1 := fun e => hne (by rw [e])
          simp only [Node.removeAt] at h
          split at h
          · simp at h; subst h; rfl
          · split at h
            · simp at h; subst h
              rw [Node.lookup_dir_cons, Node.lookup_dir_cons,
                Entries.find_erase_other _ _ _ hc]
            · simp at h
          · simp at h; subst h
            rw [Node.lookup_dir_cons, Node.lookup_dir_cons,
              Entries.find_erase_other _ _ _ hc]
        | cons c2 cs2 =>
          simp only [Node.removeAt] at h
          split at h
          · rename_i m hm
            split at h
            · rename_i m2 hm2
              simp at h; subst h
              rw [Node.lookup_dir_cons, Node.lookup_dir_cons]
              by_cases hc : c = c1
              · subst hc
                rw [Entries.find_set_same, hm]
                simp only [Option.bind]
                exact ih m m2 qs hm2 hlen2 (fun e => hne (by rw [e]))
              · rw [Entries.find_set_other _ _ _ _ hc]
            · simp at h
          · simp at h; subst h; rfl

/-- Creating directories along `p` does not change what is found at a longer
path. -/
theorem Node.lookup_mkdirs_longer : ∀ (p : List (List Char)) (n : Node)
    (q : List (List Char)), p.length < q.length → (n.mkdirs p).lookup q = n.lookup q := by
  intro p
  induction p with
  | nil => intro n q _; cases n <;> rfl
  | cons c cs ih =>
    intro n q hlen
    cases n with
    | file _ => rfl
    | other => rfl
    | dir es =>
      cases q with
      | nil => simp at hlen
      | cons c1 qs =>
        have hlen2 : cs.length < qs.length := by simpa using hlen
        simp only [Node.mkdirs]
        cases hf : es.find c with
        | some m =>
          simp only [Node.lookup_dir_cons]
          by_cases hc : c = c1
          · subst hc
            rw [Entries.find_set_same, hf]
            simp only [Option.bind]
            exact ih m qs hlen2
          · rw [Entries.find_set_other _ _ _ _ hc]
        | none =>
          simp only [Node.lookup_dir_cons]
          by_cases hc : c = c1
          · subst hc
            rw [Entries.find_set_same, hf]
            simp only [Option.bind]
            rw [ih _ qs hlen2]
            cases qs with
            | nil => simp at hlen2
            | cons _ _ => simp [Node.lookup_dir_cons, Entries.find]
          · rw [Entries.find_set_other _ _ _ _ hc]

/-- What `fs.status` says depends on the filesystem only through the lookup of
the components. -/
theorem fs.status_congr (disk disk2 : Node) (p : List Char)
    (h : disk2.lookup (parsePath p).comps = disk.lookup (parsePath p).comps) :
    fs.status disk2 p = fs.status disk p := by
  simp only [fs.status, h]

namespace FileChunkStore

/-- The results of `Has`, `Get` and `Size` for a name are the same for two
store objects with the same flag, root and depth and two filesystems that
agree at the chunk path. -/
theorem observe_congr (s s2 : FileChunkStore) (disk disk2 : Node) (m : List Byte)
    (h1 : s2.initialised_ = s.initialised_) (h2 : s2.storage_location_ = s.storage_location_)
    (h3 : s2.dir_depth_ = s.dir_depth_) (hd0 : 0 ≤ s.dir_depth_)
    (hle : s.dir_depth_.toNat ≤ (EncodeToHex m).length)
    (hl : disk2.lookup (parsePath (chunkFile s m)).comps =
      disk.lookup (parsePath (chunkFile s m)).comps) :
    Has s2 disk2 m = Has s disk m ∧ Get s2 disk2 m = Get s disk m ∧
      Size s2 disk2 m = Size s disk m := by
  have hp := ChunkNameToFilePath_eq s disk m false hd0 hle
  simp only [Bool.false_eq_true, if_false] at hp
  have hp2 := ChunkNameToFilePath_false s s2 disk disk disk2 m false _ h2 h3 hp
  have hst := fs.status_congr disk disk2 (chunkFile s m) hl
  refine ⟨?_, ?_, ?_⟩
  · simp only [Has, IsChunkStoreInitialised, h1, hp, hp2, fs.path_exists, hst]
  · simp only [Get, IsChunkStoreInitialised, h1, hp, hp2, ReadFile, hst]
  · simp only [Size, IsChunkStoreInitialised, h1, hp, hp2, fs.file_size, hst]

/-- The chunk paths of two different names of equal length have different
components of equal number, one more than the shard directory of either. -/
theorem chunk_comps_apart (s : FileChunkStore) (n m : List Byte)
    (hlen : n.length = m.length) (hne : n ≠ m)
    (hd : s.dir_depth_.toNat < (EncodeToHex n).length) :
    (parsePath (chunkFile s m)).comps.length = (parsePath (chunkFile s n)).comps.length ∧
    (parsePath (chunkFile s m)).comps ≠ (parsePath (chunkFile s n)).comps ∧
    (parsePath (shardDir s n)).comps.length < (parsePath (chunkFile s m)).comps.length := by
  have hl : (EncodeToHex n).length = (EncodeToHex m).length := by
    rw [EncodeToHex_length, EncodeToHex_length, hlen]
  have hdm : s.dir_depth_.toNat < (EncodeToHex m).length := by omega
  obtain ⟨hcn, _⟩ := parsePath_chunkFile s n hd
  obtain ⟨hcm, _⟩ := parsePath_chunkFile s m hdm
  have hsn := parsePath_shardDir s n
  have hsm := parsePath_shardDir s m
  have e1 : (parsePath (shardDir s n)).comps.length =
      (parsePath s.storage_location_).comps.length + s.dir_depth_.toNat := by
    rw [hsn]; simp; omega
  have e2 : (parsePath (shardDir s m)).comps.length =
      (parsePath s.storage_location_).comps.length + s.dir_depth_.toNat := by
    rw [hsm]; simp; omega
  refine ⟨?_, ?_, ?_⟩
  · rw [hcn, hcm]; simp [e1, e2]
  · intro e
    exact hne (chunkFile_comps_inj s n m hlen e.symm)
  · rw [hcm]; simp [e1, e2]

/-- C19: on an initialised store with shard depth `d >= 0`, for two different
names `n` and `m` of equal length whose hex length is greater than `d`,
`Store(n, content)` and `Delete(n)` return a result and, whatever it is,
`Has(m)`, `Get(m)` and `Size(m)` give afterwards what they gave before. -/
theorem C19_frame_store_delete (s : FileChunkStore) (disk : Node) (n m content : List Byte)
    (hinit : s.initialised_ = true) (hlen : n.length = m.length) (hne : n ≠ m)
    (hd0 : 0 ≤ s.dir_depth_) (hd : s.dir_depth_.toNat < (EncodeToHex n).length) :
    (∃ r s1 disk1, Store s disk n content = some (r, s1, disk1) ∧
      Has s1 disk1 m = Has s disk m ∧ Get s1 disk1 m = Get s disk m ∧
      Size s1 disk1 m = Size s disk m) ∧
    (∃ r s1 disk1, Delete s disk n = some (r, s1, disk1) ∧
      Has s1 disk1 m = Has s disk m ∧ Get s1 disk1 m = Get s disk m ∧
      Size s1 disk1 m = Size s disk m) := by
  have hl : (EncodeToHex n).length = (EncodeToHex m).length := by
    rw [EncodeToHex_length, EncodeToHex_length, hlen]
  have hle : s.dir_depth_.toNat ≤ (EncodeToHex n).length := by omega
  have hlem : s.dir_depth_.toNat ≤ (EncodeToHex m).length := by omega
  have hnn : n ≠ [] := by
    intro e; subst e; simp [EncodeToHex] at hd
  have hn : n.isEmpty = false := by cases n <;> simp_all
  obtain ⟨hclen, hcne, hslen⟩ := chunk_comps_apart s n m hlen hne hd
  obtain ⟨_, hslash⟩ := parsePath_chunkFile s n hd
  have hHas := Has_eq s disk n hinit hnn hd0 hle
  -- what a result has to satisfy
  have key : ∀ (s1 : FileChunkStore) (disk1 : Node), s1.initialised_ = s.initialised_ →
      s1.storage_location_ = s.storage_location_ → s1.dir_depth_ = s.dir_depth_ →
      disk1.lookup (parsePath (chunkFile s m)).comps =
        disk.lookup (parsePath (chunkFile s m)).comps →
      Has s1 disk1 m = Has s disk m ∧ Get s1 disk1 m = Get s disk m ∧
        Size s1 disk1 m = Size s disk m :=
    fun s1 disk1 h1 h2 h3 h4 => observe_congr s s1 disk disk1 m h1 h2 h3 hd0 hlem h4
  constructor
  · cases hb : fs.path_exists disk (chunkFile s n) with
    | true =>
      rw [hb] at hHas
      exact ⟨true, s, disk, by simp [Store, IsChunkStoreInitialised, hinit, hn, hHas],
        key s disk rfl rfl rfl rfl⟩
    | false =>
      rw [hb] at hHas
      have hpath := ChunkNameToFilePath_eq s disk n true hd0 hle
      simp only [if_true] at hpath
      have hmk : (fs.create_directories disk (shardDir s n)).lookup
          (parsePath (chunkFile s m)).comps =
          disk.lookup (parsePath (chunkFile s m)).comps := by
        simp only [fs.create_directories, shardDir_ne_nil, Bool.false_eq_true, if_false]
        exact Node.lookup_mkdirs_longer _ _ _ hslen
      have kmk := key s _ rfl rfl rfl hmk
      cases hc : content.isEmpty with
      | true =>
        exact ⟨false, s, _, by
          simp [Store, IsChunkStoreInitialised, hinit, hn, hHas, hpath, hc], kmk⟩
      | false =>
        cases hv : Vacant s content.length with
        | false =>
          exact ⟨false, s, _, by
            simp [Store, IsChunkStoreInitialised, hinit, hn, hHas, hpath, hc, hv], kmk⟩
        | true =>
          cases hw : WriteFile (fs.create_directories disk (shardDir s n)) (chunkFile s n)
              content with
          | none =>
            exact ⟨false, s, _, by
              simp [Store, IsChunkStoreInitialised, hinit, hn, hHas, hpath, hc, hv, hw], kmk⟩
          | some disk2 =>
            have hwr : (fs.create_directories disk (shardDir s n)).writeAt
                (parsePath (chunkFile s n)).comps content = some disk2 := by
              simpa [WriteFile, fs.write_file, chunkFile_ne_nil, hslash] using hw
            have hfr := Node.lookup_writeAt_frame _ _ _ _ _ hwr hclen hcne
            obtain ⟨a1, a2, a3, _⟩ := ChunkAdded_fields s content.length
            exact ⟨true, ChunkAdded s content.length, disk2, by
              simp [Store, IsChunkStoreInitialised, hinit, hn, hHas, hpath, hc, hv, hw],
              key _ disk2 a1 a2 a3 (hfr.trans hmk)⟩
  · cases hb : fs.path_exists disk (chunkFile s n) with
    | false =>
      rw [hb] at hHas
      exact ⟨true, s, disk, by simp [Delete, IsChunkStoreInitialised, hinit, hn, hHas],
        key s disk rfl rfl rfl rfl⟩
    | true =>
      rw [hb] at hHas
      have hpath := ChunkNameToFilePath_eq s disk n false hd0 hle
      simp only [Bool.false_eq_true, if_false] at hpath
      cases hr : fs.remove disk (chunkFile s n) with
      | none =>
        exact ⟨false, s, disk, by
          simp [Delete, IsChunkStoreInitialised, hinit, hn, hHas, hpath, hr],
          key s disk rfl rfl rfl rfl⟩
      | some disk1 =>
        have hfr : disk1.lookup (parsePath (chunkFile s m)).comps =
            disk.lookup (parsePath (chunkFile s m)).comps := by
          have hr2 := hr
          unfold fs.remove at hr2
          cases hst : fs.status disk (chunkFile s n) with
          | none =>
            simp only [hst, Option.some.injEq] at hr2
            subst hr2; rfl
          | some x =>
            simp only [hst] at hr2
            exact Node.lookup_removeAt_frame _ _ _ _ hr2 hclen hcne
        obtain ⟨r1, r2, r3, _⟩ := ChunkRemoved_fields s
          ((fs.file_size disk (chunkFile s n)).getD (UINTMAX_MOD - 1))
        exact ⟨true, _, disk1, by
          simp [Delete, IsChunkStoreInitialised, hinit, hn, hHas, hpath, hr],
          key _ disk1 r1 r2 r3 hfr⟩

/-- Witness of C19: storing three bytes under `cd` and deleting `cd` leave
what the store with the chunk `ab` reports for `ab`. -/
theorem C19_frame_store_delete_witness :
    (∃ r s1 disk1, Store storeAB diskAB nameCD [4, 5, 6] = some (r, s1, disk1) ∧
      Has s1 disk1 nameAB = Has storeAB diskAB nameAB ∧
      Get s1 disk1 nameAB = Get storeAB diskAB nameAB ∧
      Size s1 disk1 nameAB = Size storeAB diskAB nameAB) ∧
    (∃ r s1 disk1, Delete storeAB diskAB nameCD = some (r, s1, disk1) ∧
      Has s1 disk1 nameAB = Has storeAB diskAB nameAB ∧
      Get s1 disk1 nameAB = Get storeAB diskAB nameAB ∧
      Size s1 disk1 nameAB = Size storeAB diskAB nameAB) :=
  C19_frame_store_delete storeAB diskAB nameCD nameAB [4, 5, 6]
    (by decide) (by decide) (by decide) (by decide) (by decide)

end FileChunkStore

end maidsafe
